import Mathlib

/-!
Billing form controller (`static/js/billing.js`).

A shallow embedding of the jQuery controller of the billing page.  The DOM the
script reads and writes is a record (`Page`); every handler of the script is a
function on that record; the two `$.ajax` calls return the request they put on
the wire.  The runtime pieces the handlers lean on (`String.prototype.trim`,
`parseInt`, `parseFloat`, number-to-string conversion, `*`, `+`, `<` and `||`
on numbers) are embedded next to them.

Numbers are binary64: a finite Number value is a fraction `n / 2 ^ k`, every
operation rounds to the nearest such value with a 53-bit significand (ties to
even), and conversion to a string writes the shortest digits that read back.
The integer or decimal a text denotes before rounding is kept apart
(`readInteger`, `readLiteral`), so that a statement can speak of the amount on
display as well as of the number the script reads from it.
-/

namespace Billing

/-! ## Runtime: strings -/

/-- White space and line terminators of ECMAScript, the characters that `trim`,
`parseInt` and `parseFloat` skip. -/
def isWhiteSpace (c : Char) : Bool :=
  let n := c.toNat
  n == 0x09 || n == 0x0A || n == 0x0B || n == 0x0C || n == 0x0D || n == 0x20 ||
  n == 0xA0 || n == 0x1680 || (0x2000 ≤ n && n ≤ 0x200A) || n == 0x2028 ||
  n == 0x2029 || n == 0x202F || n == 0x205F || n == 0x3000 || n == 0xFEFF

def trimStart (cs : List Char) : List Char := cs.dropWhile isWhiteSpace

def trimEnd (cs : List Char) : List Char := (cs.reverse.dropWhile isWhiteSpace).reverse

/-- The method `String.prototype.trim`. -/
def trim (s : String) : String := ⟨trimEnd (trimStart s.data)⟩

/-- Truthiness of a string value: every string but the empty one. -/
def truthy (s : String) : Bool := !s.data.isEmpty

/-! ## Runtime: digits -/

def isDecimalDigit (c : Char) : Bool := 48 ≤ c.toNat && c.toNat ≤ 57

def isHexDigit (c : Char) : Bool :=
  isDecimalDigit c || (97 ≤ c.toNat && c.toNat ≤ 102) || (65 ≤ c.toNat && c.toNat ≤ 70)

def digitValue (c : Char) : Nat := c.toNat - 48

def hexValue (c : Char) : Nat :=
  if isDecimalDigit c then c.toNat - 48
  else if 97 ≤ c.toNat then c.toNat - 87
  else c.toNat - 55

/-- Value of a digit string, most significant digit first. -/
def readDigits (radix : Nat) (val : Char → Nat) (cs : List Char) : Nat :=
  cs.foldl (fun acc c => acc * radix + val c) 0

/-- A leading `-` or `+` is consumed; the flag tells whether it was `-`. -/
def stripSign : List Char → Bool × List Char
  | [] => (false, [])
  | c :: t => if c = '-' then (true, t) else if c = '+' then (false, t) else (false, c :: t)

/-- A leading `0x` or `0X` is consumed; the flag tells whether it was there. -/
def stripHexPrefix : List Char → Bool × List Char
  | c :: d :: t => if c = '0' ∧ (d = 'x' ∨ d = 'X') then (true, t) else (false, c :: d :: t)
  | cs => (false, cs)

def digitChar (d : Nat) : Char := Char.ofNat (48 + d)

/-- Decimal digits of `n`, least significant first; `fuel` bounds the recursion. -/
def digitsLE : Nat → Nat → List Nat
  | 0, _ => []
  | fuel + 1, n => if n < 10 then [n] else (n % 10) :: digitsLE fuel (n / 10)

def natToChars (n : Nat) : List Char := (digitsLE (n + 1) n).reverse.map digitChar

def intToChars (n : Int) : List Char :=
  if n < 0 then '-' :: natToChars n.natAbs else natToChars n.natAbs

/-- The numeral of an integer.  It is what `.val(0)` and `.text(i + 1)` write
for the zero of a reset and for a row number. -/
def numToString (n : Int) : String := ⟨intToChars n⟩

/-! ## Runtime: numbers -/

/-- A Number value.  A finite one is `n / 2 ^ k`, written in lowest terms (`k`
is 0 or `n` is odd); the two zeros are one value. -/
inductive JSNum where
  | nan
  | negInf
  | posInf
  | fin (n : Int) (k : Nat)
  deriving DecidableEq, Repr

/-- The Number value of an integer that binary64 holds exactly. -/
def JSNum.ofInt (n : Int) : JSNum := JSNum.fin n 0

/-- Number of binary digits of `n`; `fuel` bounds the recursion. -/
def bitLenAux : Nat → Nat → Nat
  | 0, _ => 0
  | fuel + 1, n => if n = 0 then 0 else bitLenAux fuel (n / 2) + 1

def bitLen (n : Nat) : Nat := bitLenAux n n

/-- The fraction `m / 2 ^ j` in lowest terms. -/
def reduce : Nat → Nat → Nat × Nat
  | m, 0 => (m, 0)
  | m, j + 1 => if m % 2 = 0 then reduce (m / 2) j else (m, j + 1)

/-- The finite value `m * 2 ^ e`. -/
def scaled (m : Nat) (e : Int) : JSNum :=
  if 0 ≤ e then JSNum.fin ((m * 2 ^ e.toNat : Nat) : Int) 0
  else JSNum.fin ((reduce m (-e).toNat).1 : Int) (reduce m (-e).toNat).2

/-- The exponent `b` with `2 ^ b ≤ a / d < 2 ^ (b + 1)`, for `a` and `d` above 0. -/
def floorLog2 (a d : Nat) : Int :=
  let l : Int := (bitLen a : Int) - (bitLen d : Int)
  if (if 0 ≤ l then d * 2 ^ l.toNat ≤ a else d ≤ a * 2 ^ (-l).toNat) then l else l - 1

/-- Finite binary64 values are below `2 ^ 1024`. -/
def overflow : Nat := 2 ^ 1024

/-- The multiple of `2 ^ e` nearest to `a / d` (for `d` above 0), the even
multiple on a tie; `posInf` from `2 ^ 1024` on. -/
def roundAt (a d : Nat) (e : Int) : JSNum :=
  let num := if e < 0 then a * 2 ^ (-e).toNat else a
  let den := if e < 0 then d else d * 2 ^ e.toNat
  let q := num / den
  let r := num % den
  let m := if den < 2 * r ∨ (2 * r = den ∧ q % 2 = 1) then q + 1 else q
  if 0 ≤ e ∧ overflow ≤ m * 2 ^ e.toNat then JSNum.posInf else scaled m e

/-- The binary64 value nearest to `a / d` (for `d` above 0), ties to the even
significand: the significand has 53 bits, and the exponent is at least -1074. -/
def round64 (a d : Nat) : JSNum :=
  if a = 0 then JSNum.fin 0 0
  else roundAt a d (max (floorLog2 a d - 52) (-1074))

def JSNum.neg : JSNum → JSNum
  | JSNum.nan => JSNum.nan
  | JSNum.negInf => JSNum.posInf
  | JSNum.posInf => JSNum.negInf
  | JSNum.fin n k => JSNum.fin (-n) k

/-- The binary64 value nearest to `a * 10 ^ e`, negated when `neg` is set. -/
def roundDecimal (neg : Bool) (a : Nat) (e : Int) : JSNum :=
  let x := if 0 ≤ e then round64 (a * 10 ^ e.toNat) 1 else round64 a (10 ^ (-e).toNat)
  if neg then x.neg else x

/-- Multiplication of Number values. -/
def JSNum.mul : JSNum → JSNum → JSNum
  | JSNum.fin n k, JSNum.fin m j =>
    let x := round64 (n.natAbs * m.natAbs) (2 ^ (k + j))
    if 0 ≤ n * m then x else x.neg
  | JSNum.fin n _, JSNum.posInf => if n = 0 then JSNum.nan else if 0 < n then JSNum.posInf else JSNum.negInf
  | JSNum.fin n _, JSNum.negInf => if n = 0 then JSNum.nan else if 0 < n then JSNum.negInf else JSNum.posInf
  | JSNum.posInf, JSNum.fin n _ => if n = 0 then JSNum.nan else if 0 < n then JSNum.posInf else JSNum.negInf
  | JSNum.negInf, JSNum.fin n _ => if n = 0 then JSNum.nan else if 0 < n then JSNum.negInf else JSNum.posInf
  | JSNum.posInf, JSNum.posInf => JSNum.posInf
  | JSNum.negInf, JSNum.negInf => JSNum.posInf
  | JSNum.posInf, JSNum.negInf => JSNum.negInf
  | JSNum.negInf, JSNum.posInf => JSNum.negInf
  | _, _ => JSNum.nan

/-- Addition of Number values. -/
def JSNum.add : JSNum → JSNum → JSNum
  | JSNum.fin n k, JSNum.fin m j =>
    let s : Int := n * 2 ^ j + m * 2 ^ k
    let x := round64 s.natAbs (2 ^ (k + j))
    if s < 0 then x.neg else x
  | JSNum.fin _ _, JSNum.posInf => JSNum.posInf
  | JSNum.fin _ _, JSNum.negInf => JSNum.negInf
  | JSNum.posInf, JSNum.fin _ _ => JSNum.posInf
  | JSNum.negInf, JSNum.fin _ _ => JSNum.negInf
  | JSNum.posInf, JSNum.posInf => JSNum.posInf
  | JSNum.negInf, JSNum.negInf => JSNum.negInf
  | _, _ => JSNum.nan

/-- The comparison `x < y` of Number values; false when either is `NaN`. -/
def JSNum.lt : JSNum → JSNum → Bool
  | JSNum.fin n k, JSNum.fin m j => decide (n * 2 ^ j < m * 2 ^ k)
  | JSNum.fin _ _, JSNum.posInf => true
  | JSNum.negInf, JSNum.fin _ _ => true
  | JSNum.negInf, JSNum.posInf => true
  | _, _ => false

/-- The idiom `x || 0`: `NaN` and zero are falsy. -/
def JSNum.orZero : JSNum → JSNum
  | JSNum.nan => JSNum.fin 0 0
  | x => x

/-- The integer part of a finite Number value; an integer-valued one is that
integer. -/
def JSNum.toInt : JSNum → Int
  | JSNum.fin n k => n / 2 ^ k
  | _ => 0

/-- The Number value of an integer: the nearest binary64 value. -/
def JSNum.ofInteger (n : Int) : JSNum :=
  if n < 0 then (round64 n.natAbs 1).neg else round64 n.natAbs 1

/-- The integer at the start of a string, as `parseInt` with no radix finds
it: white space, a sign, `0x` for radix 16, digits.  `none` when there is no
digit. -/
def readInteger (input : List Char) : Option Int :=
  let signed := stripSign (trimStart input)
  let body := stripHexPrefix signed.2
  let z := if body.1 then body.2.takeWhile isHexDigit else body.2.takeWhile isDecimalDigit
  if z.isEmpty then none
  else
    let n := if body.1 then readDigits 16 hexValue z else readDigits 10 digitValue z
    some (if signed.1 then -(n : Int) else (n : Int))

/-- The function `parseInt(string)` with no radix. -/
def parseInt (input : List Char) : JSNum :=
  match readInteger input with
  | none => JSNum.nan
  | some n => JSNum.ofInteger n

def infinityChars : List Char := "Infinity".data

/-- Exponent part of a decimal literal: `e` or `E`, an optional sign, digits.
Without digits there is no exponent part. -/
def readExponent : List Char → Int
  | [] => 0
  | c :: t =>
    if c = 'e' ∨ c = 'E' then
      let signed := stripSign t
      let ds := signed.2.takeWhile isDecimalDigit
      if ds.isEmpty then 0
      else if signed.1 then -(readDigits 10 digitValue ds : Int)
      else (readDigits 10 digitValue ds : Int)
    else 0

/-- Fraction part of a decimal literal: a dot and the digits after it. -/
def readFraction : List Char → List Char × List Char
  | [] => ([], [])
  | c :: t =>
    if c = '.' then (t.takeWhile isDecimalDigit, t.dropWhile isDecimalDigit)
    else ([], c :: t)

/-- What `parseFloat` finds at the start of a string: an infinity, or a decimal
literal `mant * 10 ^ exp`, each with its sign. -/
inductive Literal where
  | infinity (neg : Bool)
  | decimal (neg : Bool) (mant : Nat) (exp : Int)
  deriving DecidableEq, Repr

/-- The literal at the start of a string; `none` when there is none. -/
def readLiteral (input : List Char) : Option Literal :=
  let signed := stripSign (trimStart input)
  if infinityChars.isPrefixOf signed.2 then some (Literal.infinity signed.1)
  else
    let ip := signed.2.takeWhile isDecimalDigit
    let frac := readFraction (signed.2.dropWhile isDecimalDigit)
    if ip.isEmpty && frac.1.isEmpty then none
    else
      some (Literal.decimal signed.1 (readDigits 10 digitValue (ip ++ frac.1))
        (readExponent frac.2 - frac.1.length))

/-- The Number value of a literal: the nearest binary64 value. -/
def Literal.value : Literal → JSNum
  | Literal.infinity neg => if neg then JSNum.negInf else JSNum.posInf
  | Literal.decimal neg mant exp => roundDecimal neg mant exp

/-- The function `parseFloat(string)`. -/
def parseFloat (input : List Char) : JSNum :=
  match readLiteral input with
  | none => JSNum.nan
  | some l => l.value

/-- The literal, taken exactly, is at most the integer `n`. -/
def Literal.le : Literal → Int → Bool
  | Literal.infinity neg, _ => neg
  | Literal.decimal neg mant exp, n =>
    let m : Int := if neg then -(mant : Int) else (mant : Int)
    if 0 ≤ exp then decide (m * 10 ^ exp.toNat ≤ n) else decide (m ≤ n * 10 ^ (-exp).toNat)

/-! ## Runtime: number to string -/

/-- The decimal exponent `n` of `a / 2 ^ k` (above 0): `10 ^ (n - 1) ≤ a / 2 ^ k < 10 ^ n`. -/
def decimalExponentAux : Nat → Nat → Nat → Nat → Int
  | 0, _, _, z => -(z : Int)
  | fuel + 1, a, k, z =>
    if 2 ^ k ≤ a * 10 ^ (z + 1) then -(z : Int) else decimalExponentAux fuel a k (z + 1)

def decimalExponent (a k : Nat) : Int :=
  if 2 ^ k ≤ a then ((natToChars (a / 2 ^ k)).length : Int)
  else decimalExponentAux 400 a k 0

/-- A try with `kd` digits for the value `a / 2 ^ k` of decimal exponent `n`:
the two `kd`-digit decimals next to the value are candidates; one that reads
back as the value is taken, the nearer one if both do (the even one on a tie). -/
def tryDigits (kd a k : Nat) (n : Int) : Option (Nat × Int) :=
  let scale : Int := n - kd
  let num := if scale < 0 then a * 10 ^ (-scale).toNat else a
  let den := if scale < 0 then 2 ^ k else 2 ^ k * 10 ^ scale.toNat
  let lo := num / den
  let r := num % den
  let x := scaled a (-(k : Int))
  let okLo := decide (roundDecimal false lo scale = x)
  let okHi := decide (roundDecimal false (lo + 1) scale = x)
  let up : Nat × Int := if lo + 1 = 10 ^ kd then (10 ^ (kd - 1), n + 1) else (lo + 1, n)
  if okLo && (!okHi || decide (2 * r < den ∨ (2 * r = den ∧ lo % 2 = 0))) then some (lo, n)
  else if okHi then some up
  else none

/-- Search for the shortest digit string: 1 digit, then 2, and so on. -/
def shortestAux : Nat → Nat → Nat → Nat → Int → Nat × Int
  | 0, _, a, _, n => (a, n)
  | fuel + 1, kd, a, k, n =>
    match tryDigits kd a k n with
    | some r => r
    | none => shortestAux fuel (kd + 1) a k n

/-- The digits `s` and the exponent `n` of a finite value above 0, with as few
digits as read back as the value: the value is written `s * 10 ^ (n - k)`, `k`
the number of digits of `s`. -/
def shortest (a k : Nat) : Nat × Int := shortestAux 17 1 a k (decimalExponent a k)

/-- The digits `ds` (of `s`) laid out with the exponent `n`, as Number
conversion to string does. -/
def layout (ds : List Char) (n : Int) : List Char :=
  let k : Int := ds.length
  if k ≤ n ∧ n ≤ 21 then ds ++ List.replicate (n - k).toNat '0'
  else if 0 < n ∧ n ≤ 21 then ds.take n.toNat ++ ['.'] ++ ds.drop n.toNat
  else if -6 < n ∧ n ≤ 0 then ['0', '.'] ++ List.replicate (-n).toNat '0' ++ ds
  else
    let e := n - 1
    let tail := ['e', if e < 0 then '-' else '+'] ++ natToChars e.natAbs
    if ds.length = 1 then ds ++ tail else ds.take 1 ++ ['.'] ++ ds.drop 1 ++ tail

/-- Conversion of a Number value to a string. -/
def JSNum.toString : JSNum → String
  | JSNum.nan => "NaN"
  | JSNum.negInf => "-Infinity"
  | JSNum.posInf => "Infinity"
  | JSNum.fin n k =>
    if n = 0 then "0"
    else
      let r := shortest n.natAbs k
      ⟨(if n < 0 then ['-'] else []) ++ layout (natToChars r.1) r.2⟩

/-! ## The page -/

/-- A `tr.product-row`: its first cell (the row number) and its two inputs.
`node` is the identity of the DOM element. -/
structure ProductRow where
  node : Nat
  index : String
  product_code : String
  quantity : String
  deriving DecidableEq, Repr

/-- A `.denom-input`: the integer its `data-value` attribute holds and the text
the input holds. -/
structure DenomInput where
  value : Int
  val : String
  deriving DecidableEq, Repr

/-- An element of `items` in the calculate-total request. -/
structure LineItem where
  product_code : String
  quantity : JSNum
  deriving DecidableEq, Repr

/-- Body of `POST /api/calculate-total/`; `order_code` is absent when `none`. -/
structure CalcRequest where
  customer_email : String
  items : List LineItem
  order_code : Option String
  deriving DecidableEq, Repr

/-- An element of `denominations` in the generate-bill request. -/
structure Denomination where
  value : JSNum
  count : JSNum
  deriving DecidableEq, Repr

/-- Body of `POST /api/generate-bill/`. -/
structure BillRequest where
  order_code : String
  denominations : List Denomination
  deriving DecidableEq, Repr

/-- Success body of the calculate-total endpoint, as the text `.text()` and
`.val()` render. -/
structure TotalsResult where
  order_code : String
  total_before_tax : String
  total_tax : String
  total_amount : String
  deriving DecidableEq, Repr

/-- A value handed to `showError`: a string, an array (of strings) or another
object, the latter carried as its `JSON.stringify` text. -/
inductive ErrorValue where
  | str (s : String)
  | arr (xs : List String)
  | obj (json : String)
  deriving DecidableEq, Repr

/-- The fields `error` and `errors` of `xhr.responseJSON`; both are `none` when
the response has no JSON body. -/
structure ErrorBody where
  error : Option ErrorValue
  errors : Option ErrorValue
  deriving DecidableEq, Repr

/-- What the script reads and writes of the document, and the requests in
flight. -/
structure Page where
  customerEmail : String
  rows : List ProductRow
  nextNode : Nat
  orderCode : String
  displayOrderCode : String
  totalBeforeTax : String
  totalTax : String
  totalAmount : String
  totalsHidden : Bool
  denominationHidden : Bool
  denoms : List DenomInput
  paidAmount : String
  errorText : String
  errorHidden : Bool
  calcDisabled : Bool
  calcLabel : String
  genDisabled : Bool
  genLabel : String
  location : Option String
  calcInFlight : Option CalcRequest
  genInFlight : Option BillRequest
  deriving DecidableEq, Repr

/-! ## Helpers of the script -/

def ErrorValue.render : ErrorValue → String
  | ErrorValue.str s => s
  | ErrorValue.arr xs => String.intercalate "\n" xs
  | ErrorValue.obj json => json

def showError (msg : ErrorValue) (p : Page) : Page :=
  { p with errorText := msg.render, errorHidden := false }

def clearError (p : Page) : Page :=
  { p with errorHidden := true, errorText := "" }

def resetPaymentSection (p : Page) : Page :=
  { p with
    totalsHidden := true
    denominationHidden := true
    denoms := p.denoms.map (fun d => { d with val := numToString 0 })
    paidAmount := "" }

/-- The number `parseInt($(this).data('value'))`: `data` hands `parseInt` the
attribute, whose text is the numeral of the face value. -/
def DenomInput.face (d : DenomInput) : JSNum := parseInt (intToChars d.value)

/-- The count a denomination input holds: `parseInt($(this).val()) || 0`. -/
def DenomInput.count (d : DenomInput) : JSNum := (parseInt d.val.data).orZero

/-- The integer a denomination input holds, before it is made a Number value;
0 when it holds none. -/
def DenomInput.exactCount (d : DenomInput) : Int := (readInteger d.val.data).getD 0

/-- The loop of `updatePaidAmount`: `total += value * count` over the slots. -/
def paidTotal (denoms : List DenomInput) : JSNum :=
  denoms.foldl (fun total d => JSNum.add total (JSNum.mul d.face.orZero d.count)) (JSNum.ofInt 0)

def updatePaidAmount (p : Page) : Page :=
  let total := paidTotal p.denoms
  { p with paidAmount := total.toString }

def reindexFrom : Nat → List ProductRow → List ProductRow
  | _, [] => []
  | i, r :: rs => { r with index := numToString ((i : Int) + 1) } :: reindexFrom (i + 1) rs

def reindexRows (p : Page) : Page :=
  { p with rows := reindexFrom 0 p.rows }

/-! ## Handlers -/

/-- Click on `#add-product`. -/
def addRow (p : Page) : Page :=
  let row : ProductRow :=
    { node := p.nextNode, index := "", product_code := "", quantity := "1" }
  resetPaymentSection
    (reindexRows { p with rows := p.rows ++ [row], nextNode := p.nextNode + 1 })

/-- Click on the `.remove-product` button of the row at position `i`. -/
def removeRow (i : Nat) (p : Page) : Page :=
  if p.rows.length ≤ 1 then
    showError (ErrorValue.str "At least one product is required.") p
  else
    resetPaymentSection (reindexRows { p with rows := p.rows.eraseIdx i })

/-- A function applied to the element at position `i`. -/
def updateAt {α : Type} (f : α → α) : Nat → List α → List α
  | _, [] => []
  | 0, x :: xs => f x :: xs
  | i + 1, x :: xs => x :: updateAt f i xs

/-- Input event on the `product_code` field of row `i`, which now holds `text`. -/
def inputProductCode (i : Nat) (text : String) (p : Page) : Page :=
  resetPaymentSection
    { p with rows := updateAt (fun r => { r with product_code := text }) i p.rows }

/-- Input event on the `quantity` field of row `i`, which now holds `text`. -/
def inputQuantity (i : Nat) (text : String) (p : Page) : Page :=
  resetPaymentSection
    { p with rows := updateAt (fun r => { r with quantity := text }) i p.rows }

/-- The customer types in `#customer-email`; no handler is bound to it. -/
def inputEmail (text : String) (p : Page) : Page :=
  { p with customerEmail := text }

/-- Input event on the denomination input at position `i`, which now holds
`text`. -/
def inputDenom (i : Nat) (text : String) (p : Page) : Page :=
  updatePaidAmount
    { p with denoms := updateAt (fun d => { d with val := text }) i p.denoms }

/-- The loop over `.product-row` that fills `items`. -/
def collectItems (rows : List ProductRow) : List LineItem :=
  rows.foldl
    (fun items r =>
      let code := trim r.product_code
      let qty := (parseInt r.quantity.data).orZero
      if truthy code then items ++ [{ product_code := code, quantity := qty }] else items)
    []

/-- Click on `#calculate-total`: the page after the handler has run and the
request it sent, if any. -/
def calculateTotal (p : Page) : Page × Option CalcRequest :=
  let p := clearError p
  let email := trim p.customerEmail
  let items := collectItems p.rows
  if !truthy email then
    (showError (ErrorValue.str "Customer email is required.") p, none)
  else if items.length = 0 then
    (showError (ErrorValue.str "Add at least one product.") p, none)
  else
    let data : CalcRequest :=
      { customer_email := email
        items := items
        order_code := if truthy p.orderCode then some p.orderCode else none }
    ({ p with calcDisabled := true, calcLabel := "Calculating...", calcInFlight := some data },
      some data)

/-- The `success` callback of the calculate-total call. -/
def calcSuccess (res : TotalsResult) (p : Page) : Page :=
  { p with
    orderCode := res.order_code
    displayOrderCode := res.order_code
    totalBeforeTax := res.total_before_tax
    totalTax := res.total_tax
    totalAmount := res.total_amount
    totalsHidden := false
    denominationHidden := false }

/-- The expression `data.error || data.errors || 'Something went wrong.'`. -/
def errorOf (body : ErrorBody) : ErrorValue :=
  let falsy : Option ErrorValue → Bool := fun v =>
    match v with
    | none => true
    | some (ErrorValue.str s) => !truthy s
    | some _ => false
  if !falsy body.error then body.error.getD (ErrorValue.str "")
  else if !falsy body.errors then body.errors.getD (ErrorValue.str "")
  else ErrorValue.str "Something went wrong."

/-- The `error` callback of both calls. -/
def ajaxError (body : ErrorBody) (p : Page) : Page := showError (errorOf body) p

/-- The `complete` callback of the calculate-total call. -/
def calcComplete (p : Page) : Page :=
  { p with calcDisabled := false, calcLabel := "Calculate Total", calcInFlight := none }

/-- The loop over `.denom-input` that fills `denominations`. -/
def collectDenominations (denoms : List DenomInput) : List Denomination :=
  denoms.foldl
    (fun denominations d =>
      let count := d.count
      if JSNum.lt (JSNum.ofInt 0) count then
        denominations ++ [{ value := d.face, count := count }]
      else denominations)
    []

/-- The number `parseInt($('#paid-amount').val()) || 0`. -/
def Page.paid (p : Page) : JSNum := (parseInt p.paidAmount.data).orZero

/-- The number `parseFloat($('#total-amount').text()) || 0`. -/
def Page.total (p : Page) : JSNum := (parseFloat p.totalAmount.data).orZero

/-- The message shown when the paid amount does not cover the total. -/
def paidLessMessage (paidAmount : JSNum) (totalAmount : JSNum) : String :=
  "Paid amount (" ++ paidAmount.toString ++ ") is less than total amount (" ++
    totalAmount.toString ++ "). Please add more denominations."

/-- Click on `#generate-bill`: the page after the handler has run and the
request it sent, if any. -/
def generateBill (p : Page) : Page × Option BillRequest :=
  let p := clearError p
  let orderCode := p.orderCode
  if !truthy orderCode then
    (showError (ErrorValue.str "Please calculate total first.") p, none)
  else
    let denominations := collectDenominations p.denoms
    if denominations.length = 0 then
      (showError (ErrorValue.str "Enter at least one denomination count.") p, none)
    else
      let paidAmount := p.paid
      let totalAmount := p.total
      if JSNum.lt paidAmount totalAmount then
        (showError (ErrorValue.str (paidLessMessage paidAmount totalAmount)) p, none)
      else
        let data : BillRequest := { order_code := orderCode, denominations := denominations }
        ({ p with genDisabled := true, genLabel := "Processing...", genInFlight := some data },
          some data)

/-- The `success` callback of the generate-bill call. -/
def genSuccess (order_code : String) (p : Page) : Page :=
  { p with location := some ("/bill/" ++ order_code ++ "/") }

/-- The `complete` callback of the generate-bill call. -/
def genComplete (p : Page) : Page :=
  { p with genDisabled := false, genLabel := "Generate Bill", genInFlight := none }

/-! ## Events -/

/-- What can happen to the page: the user acts on a control, or a request in
flight completes. -/
inductive Event where
  | addProduct
  | removeProduct (i : Nat)
  | productCode (i : Nat) (text : String)
  | quantity (i : Nat) (text : String)
  | email (text : String)
  | denom (i : Nat) (text : String)
  | clickCalculate
  | calcOk (res : TotalsResult)
  | calcFailed (body : ErrorBody)
  | clickGenerate
  | genOk (order_code : String)
  | genFailed (body : ErrorBody)
  deriving DecidableEq, Repr

/-- One event.  A disabled button receives no click, and a callback runs only
for a request in flight; `complete` runs right after `success` or `error`. -/
def step (p : Page) : Event → Page
  | Event.addProduct => addRow p
  | Event.removeProduct i => removeRow i p
  | Event.productCode i text => inputProductCode i text p
  | Event.quantity i text => inputQuantity i text p
  | Event.email text => inputEmail text p
  | Event.denom i text => inputDenom i text p
  | Event.clickCalculate => if p.calcDisabled then p else (calculateTotal p).1
  | Event.calcOk res => if p.calcInFlight.isSome then calcComplete (calcSuccess res p) else p
  | Event.calcFailed body =>
    if p.calcInFlight.isSome then calcComplete (ajaxError body p) else p
  | Event.clickGenerate => if p.genDisabled then p else (generateBill p).1
  | Event.genOk order_code =>
    if p.genInFlight.isSome then genComplete (genSuccess order_code p) else p
  | Event.genFailed body => if p.genInFlight.isSome then genComplete (ajaxError body p) else p

def run (p : Page) (events : List Event) : Page := events.foldl step p

/-- A page before any interaction with one empty product row and the
denomination slots of the given face values. -/
def freshPage (values : List Int) : Page :=
  { customerEmail := ""
    rows := [{ node := 0, index := "1", product_code := "", quantity := "1" }]
    nextNode := 1
    orderCode := ""
    displayOrderCode := ""
    totalBeforeTax := ""
    totalTax := ""
    totalAmount := ""
    totalsHidden := true
    denominationHidden := true
    denoms := values.map (fun v => { value := v, val := "0" })
    paidAmount := ""
    errorText := ""
    errorHidden := true
    calcDisabled := false
    calcLabel := "Calculate Total"
    genDisabled := false
    genLabel := "Generate Bill"
    location := none
    calcInFlight := none
    genInFlight := none }

/-! ## Amounts on display -/

/-- An amount of `c` cents as it is written with two decimals: `110.50` for
11050. -/
def centsText (c : Nat) : String :=
  ⟨natToChars (c / 100) ++ ['.', digitChar (c % 100 / 10), digitChar (c % 10)]⟩

/-- The amount a text displays, taken exactly, is at most the integer `n`; a
text that displays no number asks for nothing. -/
def displayedAtMost (text : String) (n : Int) : Bool :=
  match readLiteral text.data with
  | none => true
  | some l => l.le n

/-! ## Line items -/

/-- The Number value is an integer of at least `lo`. -/
def JSNum.isIntegerFrom (x : JSNum) (lo : Int) : Bool :=
  match x with
  | JSNum.fin n 0 => decide (lo ≤ n)
  | _ => false

/-- A line item as the data model has it: a non-empty trimmed product code and
an integer quantity of at least 1. -/
def ValidLineItem (it : LineItem) : Prop :=
  it.product_code ≠ "" ∧ trim it.product_code = it.product_code ∧
  it.quantity.isIntegerFrom 1 = true

instance (it : LineItem) : Decidable (ValidLineItem it) := by
  unfold ValidLineItem; infer_instance

/-- A page with the email filled in and three product rows whose quantity
fields hold `0`, nothing, and `-3`. -/
def quantityPage : Page :=
  run (freshPage [100, 50])
    [Event.email "a@b.com", Event.addProduct, Event.addProduct,
     Event.productCode 0 "P001", Event.quantity 0 "0",
     Event.productCode 1 "P002", Event.quantity 1 "",
     Event.productCode 2 "P003", Event.quantity 2 "-3"]

/-! ## Payment and total -/

/-- Sum of face value times count over all denomination slots, in integers. -/
def slotSum (denoms : List DenomInput) : Int :=
  (denoms.map (fun d => d.value * d.exactCount)).sum

/-- The slots keep the arithmetic of the script exact: every face value and
every count is below `2 ^ 53` in size, and so is the sum of the sizes of the
products of face value and count. -/
def SafeSlots (denoms : List DenomInput) : Prop :=
  (∀ d ∈ denoms, d.value.natAbs < 2 ^ 53 ∧ d.exactCount.natAbs < 2 ^ 53) ∧
  (denoms.map (fun d => (d.value * d.exactCount).natAbs)).sum < 2 ^ 53

instance (denoms : List DenomInput) : Decidable (SafeSlots denoms) := by
  unfold SafeSlots; infer_instance

/-- Sum of value times count over the denominations a request carries. -/
def BillRequest.amount (req : BillRequest) : Int :=
  (req.denominations.map (fun d => d.value.toInt * d.count.toInt)).sum

/-- The paid amount on display agrees with the denomination inputs, and the
face values are positive and below `2 ^ 53`. -/
def InSync (p : Page) : Prop :=
  p.paid = (parseInt (paidTotal p.denoms).toString.data).orZero ∧
  ∀ d ∈ p.denoms, 0 < d.value ∧ d.value < 2 ^ 53

/-- The page the examples start from: an order for `P001` has been totalled as
`total`, and the listed denomination inputs have been filled in. -/
def pageAt (values : List Int) (total : String) (counts : List (Nat × String)) : Page :=
  run (freshPage values)
    ([Event.email "a@b.com", Event.productCode 0 "P001", Event.clickCalculate,
      Event.calcOk ⟨"O1", "0", "0", total⟩] ++ counts.map (fun c => Event.denom c.1 c.2))

/-! ## Rows -/

/-- The payment section after a reset: both sections hidden, every
denomination input holding `0`, the paid amount empty. -/
def PaymentReset (p : Page) : Prop :=
  p.totalsHidden = true ∧ p.denominationHidden = true ∧
  (∀ d ∈ p.denoms, d.val = "0") ∧ p.paidAmount = ""

/-- Indices of rows to remove, one click after the other, each pointing at a
row present at that moment; `n` is the number of rows before the first click. -/
def validRemovals : Nat → List Nat → Bool
  | _, [] => true
  | n, i :: is => decide (i < n) && validRemovals (n - 1) is

/-! ## History of a run -/

/-- What a run remembers beside the page: how many item edits (a product code
or quantity edit, a row added, a row removed) have happened, how many had
happened when the calculate-total request now in flight was sent, and how many
had happened when the request that produced the displayed total was sent. -/
structure History where
  edits : Nat
  sentAt : Nat
  shownAt : Nat
  deriving DecidableEq, Repr

/-- The history after event `e` on page `p`. -/
def observe (p : Page) (h : History) : Event → History
  | Event.addProduct => { h with edits := h.edits + 1 }
  | Event.removeProduct _ => if p.rows.length ≤ 1 then h else { h with edits := h.edits + 1 }
  | Event.productCode _ _ => { h with edits := h.edits + 1 }
  | Event.quantity _ _ => { h with edits := h.edits + 1 }
  | Event.clickCalculate =>
    if p.calcDisabled then h
    else if (calculateTotal p).2.isSome then { h with sentAt := h.edits } else h
  | Event.calcOk _ => if p.calcInFlight.isSome then { h with shownAt := h.sentAt } else h
  | _ => h

def runObserved (p : Page) (h : History) : List Event → Page × History
  | [] => (p, h)
  | e :: es => runObserved (step p e) (observe p h e) es

/-- The displayed total is not stale: when both sections are visible, no item
edit has happened since the request that produced the total was sent. -/
def TotalFresh (s : Page × History) : Prop :=
  s.1.totalsHidden = false → s.1.denominationHidden = false → s.2.shownAt = s.2.edits

instance (s : Page × History) : Decidable (TotalFresh s) := by
  unfold TotalFresh; infer_instance

/-- A page with the email filled in and one product row, `P001` times 1. -/
def orderPage : Page :=
  run (freshPage [100, 50]) [Event.email "a@b.com", Event.productCode 0 "P001"]

/-- The quantity is edited while the calculate-total request is in flight, and
then the response arrives. -/
def editInFlight : List Event :=
  [Event.clickCalculate, Event.quantity 0 "5", Event.calcOk ⟨"O1", "100", "10", "110"⟩]

/-- The event changes the items: a row is added, a row is removed (a removal
asked for with one row left removes nothing), or a field of a row is edited. -/
def isItemEdit (p : Page) : Event → Bool
  | Event.addProduct => true
  | Event.removeProduct _ => decide (1 < p.rows.length)
  | Event.productCode _ _ => true
  | Event.quantity _ _ => true
  | _ => false

/-- No item edit happens in this run while a calculate-total request is in
flight. -/
def quietRun : Page → List Event → Bool
  | _, [] => true
  | p, e :: es => !(isItemEdit p e && p.calcInFlight.isSome) && quietRun (step p e) es

/-! ## Binary64: rounding -/

theorem bitLenAux_zero (fuel : Nat) : bitLenAux fuel 0 = 0 := by
  cases fuel <;> simp [bitLenAux]

theorem bitLenAux_spec (fuel n : Nat) (h : n ≤ fuel) :
    n < 2 ^ bitLenAux fuel n ∧ (n ≠ 0 → 2 ^ (bitLenAux fuel n - 1) ≤ n) := by
  induction fuel generalizing n with
  | zero =>
    have : n = 0 := by omega
    subst this; simp [bitLenAux]
  | succ fuel ih =>
    by_cases hn : n = 0
    · subst hn; simp [bitLenAux]
    · have hhalf : n / 2 ≤ fuel := by omega
      obtain ⟨h1, h2⟩ := ih (n / 2) hhalf
      simp only [bitLenAux, hn, if_false, Nat.add_sub_cancel]
      constructor
      · rw [Nat.pow_succ]; omega
      · intro _
        by_cases hz : n / 2 = 0
        · rw [hz, bitLenAux_zero]; simp; omega
        · have h3 := h2 hz
          have hpos : bitLenAux fuel (n / 2) ≠ 0 := by
            intro h0; rw [h0] at h1; simp at h1; exact hz h1
          obtain ⟨L, hL⟩ := Nat.exists_eq_succ_of_ne_zero hpos
          rw [hL] at h3 ⊢
          simp only [Nat.succ_sub_one] at h3
          rw [Nat.pow_succ]; omega

/-- The bit length brackets the number. -/
theorem bitLen_spec (n : Nat) :
    n < 2 ^ bitLen n ∧ (n ≠ 0 → 2 ^ (bitLen n - 1) ≤ n) :=
  bitLenAux_spec n n (Nat.le_refl n)

theorem bitLen_le_of_lt {n k : Nat} (h : n < 2 ^ k) : bitLen n ≤ k := by
  by_cases hn : n = 0
  · subst hn; simp [bitLen, bitLenAux_zero]
  · have h2 := (bitLen_spec n).2 hn
    by_contra hc
    have : 2 ^ k ≤ 2 ^ (bitLen n - 1) := Nat.pow_le_pow_right (by norm_num) (by omega)
    omega

theorem lt_bitLen_of_le {n k : Nat} (h : 2 ^ k ≤ n) : k < bitLen n := by
  have h1 := (bitLen_spec n).1
  by_contra hc
  have : 2 ^ bitLen n ≤ 2 ^ k := Nat.pow_le_pow_right (by norm_num) (by omega)
  omega

theorem reduce_mul_pow (a j : Nat) : reduce (a * 2 ^ j) j = (a, 0) := by
  induction j with
  | zero => simp [reduce]
  | succ j ih =>
    have h1 : a * 2 ^ (j + 1) % 2 = 0 := by
      rw [Nat.pow_succ, ← Nat.mul_assoc]; exact Nat.mul_mod_left _ _
    have h2 : a * 2 ^ (j + 1) / 2 = a * 2 ^ j := by
      rw [Nat.pow_succ, ← Nat.mul_assoc]; exact Nat.mul_div_cancel _ (by norm_num)
    simp only [reduce, h1, if_true, h2, ih]

theorem reduce_value (m j : Nat) : (reduce m j).1 * 2 ^ j = m * 2 ^ (reduce m j).2 := by
  induction j generalizing m with
  | zero => simp [reduce]
  | succ j ih =>
    by_cases h : m % 2 = 0
    · simp only [reduce, h, if_true]
      have := ih (m / 2)
      rw [Nat.pow_succ, ← Nat.mul_assoc, this]
      have hm : m = m / 2 * 2 := by omega
      calc m / 2 * 2 ^ (reduce (m / 2) j).2 * 2
          = (m / 2 * 2) * 2 ^ (reduce (m / 2) j).2 := by ring
        _ = m * 2 ^ (reduce (m / 2) j).2 := by rw [← hm]
    · simp only [reduce, h, if_false]

theorem scaled_mul_pow (a j : Nat) : scaled (a * 2 ^ j) (-(j : Int)) = JSNum.fin a 0 := by
  by_cases hj : j = 0
  · subst hj; simp [scaled]
  · have hneg : ¬ (0 : Int) ≤ -(j : Int) := by omega
    simp only [scaled, hneg, if_false, neg_neg, Int.toNat_ofNat, reduce_mul_pow]

set_option exponentiation.threshold 2000 in
theorem lt_overflow {a : Nat} (h : a < 2 ^ 53) : a < overflow :=
  lt_of_lt_of_le h (by decide)

/-- Rounding at an exponent of 0 or below leaves an integer below `2 ^ 1024` as
it is. -/
theorem roundAt_integer (a : Nat) (e : Int) (he : e ≤ 0) (ha : a < overflow) :
    roundAt a 1 e = JSNum.fin a 0 := by
  by_cases h0 : e < 0
  · obtain ⟨j, hj⟩ : ∃ j : Nat, e = -(j : Int) := ⟨(-e).toNat, by omega⟩
    subst hj
    have hnn : ¬ (0 : Int) ≤ -(j : Int) := by omega
    simp only [roundAt, h0, if_true, neg_neg, Int.toNat_ofNat, Nat.div_one, Nat.mod_one,
      hnn, false_and, if_false]
    have hm : ¬ (1 < 2 * 0 ∨ (2 * 0 = 1 ∧ a * 2 ^ j % 2 = 1)) := by omega
    simp only [hm, if_false]
    exact scaled_mul_pow a j
  · have he0 : e = 0 := by omega
    subst he0
    have hov : ¬ (overflow ≤ a) := Nat.not_le.mpr ha
    simp [roundAt, scaled, hov, Nat.mod_one]

theorem bitLen_one : bitLen 1 = 1 := by decide

theorem floorLog2_le (a d : Nat) : floorLog2 a d ≤ (bitLen a : Int) - (bitLen d : Int) := by
  simp only [floorLog2]
  split_ifs <;> omega

/-- An integer below `2 ^ 53` is a binary64 value. -/
theorem round64_exact (a : Nat) (h : a < 2 ^ 53) : round64 a 1 = JSNum.fin a 0 := by
  by_cases ha : a = 0
  · simp [round64, ha]
  · have hb := bitLen_le_of_lt h
    have hl := floorLog2_le a 1
    rw [bitLen_one] at hl
    simp only [round64, ha, if_false]
    exact roundAt_integer a _ (by omega) (lt_overflow h)

/-- From `2 ^ 53` on, rounding an integer gives an integer of at least `2 ^ 53`
or overflows. -/
theorem round64_large (a : Nat) (h : 2 ^ 53 ≤ a) :
    round64 a 1 = JSNum.posInf ∨ ∃ v : Nat, 2 ^ 53 ≤ v ∧ round64 a 1 = JSNum.fin v 0 := by
  have ha : a ≠ 0 := by
    have : 0 < 2 ^ 53 := Nat.pos_pow_of_pos _ (by norm_num)
    omega
  have hlen : 53 < bitLen a := lt_bitLen_of_le h
  have hlow := (bitLen_spec a).2 ha
  obtain ⟨l, hl⟩ : ∃ l : Nat, bitLen a = l + 1 := ⟨bitLen a - 1, by omega⟩
  rw [hl, Nat.add_sub_cancel] at hlow
  have hfl : floorLog2 a 1 = (l : Int) := by
    simp only [floorLog2, bitLen_one, hl]
    have h1 : ((l + 1 : Nat) : Int) - ((1 : Nat) : Int) = (l : Int) := by omega
    rw [h1]
    simp [hlow]
  obtain ⟨e, he⟩ : ∃ e : Nat, l = 52 + (e + 1) := ⟨l - 53, by omega⟩
  have hmax : max ((l : Int) - 52) (-1074) = ((e + 1 : Nat) : Int) := by omega
  simp only [round64, ha, if_false, hfl, hmax]
  have hnn : ¬ (((e + 1 : Nat) : Int) < 0) := by omega
  have hpos : (0 : Int) ≤ ((e + 1 : Nat) : Int) := by omega
  simp only [roundAt, hnn, if_false, Int.toNat_ofNat, Nat.one_mul, hpos, true_and, scaled,
    if_true]
  have hq : 2 ^ 52 ≤ a / 2 ^ (e + 1) := by
    rw [Nat.le_div_iff_mul_le (Nat.pos_pow_of_pos _ (by norm_num)), ← Nat.pow_add, ← he]
    exact hlow
  have h2 : (2 : Nat) ≤ 2 ^ (e + 1) := by
    calc (2 : Nat) = 2 ^ 1 := by norm_num
      _ ≤ 2 ^ (e + 1) := Nat.pow_le_pow_right (by norm_num) (by omega)
  have key : ∀ m : Nat, a / 2 ^ (e + 1) ≤ m → 2 ^ 53 ≤ m * 2 ^ (e + 1) := by
    intro m hm
    calc 2 ^ 53 = 2 ^ 52 * 2 := by norm_num
      _ ≤ m * 2 ^ (e + 1) := Nat.mul_le_mul (le_trans hq hm) h2
  have hm : a / 2 ^ (e + 1) ≤
      (if 2 ^ (e + 1) < 2 * (a % 2 ^ (e + 1)) ∨
          2 * (a % 2 ^ (e + 1)) = 2 ^ (e + 1) ∧ a / 2 ^ (e + 1) % 2 = 1 then
        a / 2 ^ (e + 1) + 1
      else a / 2 ^ (e + 1)) := by
    split
    · exact Nat.le_succ _
    · exact Nat.le_refl _
  generalize (if 2 ^ (e + 1) < 2 * (a % 2 ^ (e + 1)) ∨
      2 * (a % 2 ^ (e + 1)) = 2 ^ (e + 1) ∧ a / 2 ^ (e + 1) % 2 = 1 then
    a / 2 ^ (e + 1) + 1
  else a / 2 ^ (e + 1)) = m at hm ⊢
  by_cases hov : overflow ≤ m * 2 ^ (e + 1)
  · left; rw [if_pos hov]
  · right; rw [if_neg hov]
    exact ⟨_, key m hm, rfl⟩

/-- Only the integer itself rounds to an integer below `2 ^ 53`. -/
theorem round64_eq_safe (a n : Nat) (hn : n < 2 ^ 53) (h : round64 a 1 = JSNum.fin n 0) :
    a = n := by
  by_cases ha : a < 2 ^ 53
  · rw [round64_exact a ha] at h
    simpa using h
  · rcases round64_large a (by omega) with h1 | ⟨v, hv, h1⟩
    · rw [h1] at h; cases h
    · rw [h1] at h
      simp only [JSNum.fin.injEq, Nat.cast_inj, and_true] at h
      omega

theorem ofInteger_safe (n : Int) (h : n.natAbs < 2 ^ 53) : JSNum.ofInteger n = JSNum.ofInt n := by
  simp only [JSNum.ofInteger, round64_exact _ h, JSNum.neg, JSNum.ofInt]
  split
  · congr 1; omega
  · congr 1; omega

theorem mul_safe (a b : Int) (h : (a * b).natAbs < 2 ^ 53) :
    JSNum.mul (JSNum.ofInt a) (JSNum.ofInt b) = JSNum.ofInt (a * b) := by
  have h2 : a.natAbs * b.natAbs < 2 ^ 53 := by rw [← Int.natAbs_mul]; exact h
  simp only [JSNum.ofInt, JSNum.mul, Nat.add_zero, Nat.pow_zero, round64_exact _ h2, JSNum.neg]
  have habs : ((a.natAbs * b.natAbs : Nat) : Int) = |a * b| := by
    rw [← Int.natAbs_mul, Int.natCast_natAbs]
  split
  · rename_i hs
    congr 1; rw [habs, abs_of_nonneg hs]
  · rename_i hs
    congr 1; rw [habs, abs_of_neg (by omega)]; ring

theorem add_safe (a b : Int) (h : (a + b).natAbs < 2 ^ 53) :
    JSNum.add (JSNum.ofInt a) (JSNum.ofInt b) = JSNum.ofInt (a + b) := by
  simp only [JSNum.ofInt, JSNum.add, Nat.add_zero, Nat.pow_zero, pow_zero, mul_one,
    round64_exact _ h, JSNum.neg]
  split
  · congr 1; omega
  · congr 1; omega

theorem lt_ofInt (a b : Int) : JSNum.lt (JSNum.ofInt a) (JSNum.ofInt b) = decide (a < b) := by
  simp [JSNum.lt, JSNum.ofInt]

theorem orZero_ofInt (a : Int) : (JSNum.ofInt a).orZero = JSNum.ofInt a := rfl

theorem toInt_ofInt (a : Int) : (JSNum.ofInt a).toInt = a := by
  simp [JSNum.toInt, JSNum.ofInt]

/-! ## Numerals and `parseInt` -/

theorem digitChar_val {d : Nat} (h : d < 10) :
    isDecimalDigit (digitChar d) = true ∧ digitValue (digitChar d) = d ∧
    isWhiteSpace (digitChar d) = false ∧ digitChar d ≠ '-' ∧ digitChar d ≠ '+' := by
  interval_cases d <;> decide

theorem isDecimalDigit_not_x {c : Char} (h : isDecimalDigit c = true) : c ≠ 'x' ∧ c ≠ 'X' := by
  constructor <;> (rintro rfl; revert h; decide)

theorem digitsLE_lt (fuel n : Nat) : ∀ d ∈ digitsLE fuel n, d < 10 := by
  induction fuel generalizing n with
  | zero => intro d hd; simp [digitsLE] at hd
  | succ fuel ih =>
    intro d hd
    unfold digitsLE at hd
    split at hd
    · simp at hd; omega
    · rcases List.mem_cons.mp hd with h | h
      · omega
      · exact ih _ d h

theorem digitsLE_ne_nil (fuel n : Nat) : digitsLE (fuel + 1) n ≠ [] := by
  unfold digitsLE
  split <;> simp

theorem digitsLE_value (fuel n : Nat) (h : n < fuel) :
    (digitsLE fuel n).foldr (fun d acc => acc * 10 + d) 0 = n := by
  induction fuel generalizing n with
  | zero => omega
  | succ fuel ih =>
    unfold digitsLE
    split
    · simp
    · have h2 : n / 10 < fuel := by omega
      simp only [List.foldr_cons, ih _ h2]
      omega

/-- The characters of a natural number: at least one, all decimal digits, and
they read back as the number. -/
theorem natToChars_spec (n : Nat) :
    natToChars n ≠ [] ∧ (∀ c ∈ natToChars n, isDecimalDigit c = true) ∧
    readDigits 10 digitValue (natToChars n) = n := by
  refine ⟨?_, ?_, ?_⟩
  · simp [natToChars, digitsLE_ne_nil]
  · intro c hc
    simp only [natToChars, List.mem_map, List.mem_reverse] at hc
    obtain ⟨d, hd, rfl⟩ := hc
    exact (digitChar_val (digitsLE_lt _ _ d hd)).1
  · have key : ∀ ds : List Nat, (∀ d ∈ ds, d < 10) →
        readDigits 10 digitValue (ds.reverse.map digitChar)
          = ds.foldr (fun d acc => acc * 10 + d) 0 := by
      intro ds
      induction ds with
      | nil => intro _; rfl
      | cons d ds ih =>
        intro hds
        have hd := (digitChar_val (hds d (List.mem_cons_self _ _))).2.1
        have := ih (fun x hx => hds x (List.mem_cons_of_mem _ hx))
        simp only [readDigits, List.reverse_cons, List.map_append, List.map_cons, List.map_nil,
          List.foldl_append, List.foldl_cons, List.foldl_nil, List.foldr_cons] at this ⊢
        rw [this, hd]
    rw [natToChars, key _ (digitsLE_lt _ _), digitsLE_value _ _ (Nat.lt_succ_self n)]

theorem readInteger_digits (neg : Bool) (cs : List Char) (hne : cs ≠ [])
    (hall : ∀ c ∈ cs, isDecimalDigit c = true) :
    readInteger (if neg then '-' :: cs else cs)
      = some (if neg then -(readDigits 10 digitValue cs : Int) else readDigits 10 digitValue cs) := by
  obtain ⟨c, t, rfl⟩ := List.exists_cons_of_ne_nil hne
  have hc : isDecimalDigit c = true := hall c (List.mem_cons_self _ _)
  have hws : isWhiteSpace c = false := by
    revert hc; simp only [isDecimalDigit, isWhiteSpace]; intro hc
    simp only [Bool.and_eq_true, decide_eq_true_eq] at hc
    simp only [Bool.or_eq_false_iff, beq_eq_false_iff_ne, Bool.and_eq_false_iff,
      decide_eq_false_iff_not]
    omega
  have hm : c ≠ '-' := by rintro rfl; revert hc; decide
  have hp : c ≠ '+' := by rintro rfl; revert hc; decide
  have hsign : stripSign (trimStart (if neg then '-' :: c :: t else c :: t)) = (neg, c :: t) := by
    cases neg
    · simp [trimStart, List.dropWhile, hws, stripSign, hm, hp]
    · have : isWhiteSpace '-' = false := by decide
      simp [trimStart, List.dropWhile, this, stripSign]
  have hhex : stripHexPrefix (c :: t) = (false, c :: t) := by
    cases t with
    | nil => rfl
    | cons d t =>
      have hd := isDecimalDigit_not_x (hall d (by simp))
      simp [stripHexPrefix, hd.1, hd.2]
  have htake : (c :: t).takeWhile isDecimalDigit = c :: t :=
    List.takeWhile_eq_self_iff.mpr hall
  simp only [readInteger, hsign, hhex, htake]
  simp

/-- The numeral of an integer denotes that integer. -/
theorem readInteger_numToString (n : Int) : readInteger (numToString n).data = some n := by
  obtain ⟨hne, hall, hval⟩ := natToChars_spec n.natAbs
  by_cases hn : n < 0
  · have h := readInteger_digits true _ hne hall
    simp only [if_true, hval] at h
    simp only [numToString, intToChars, hn, if_true, h]
    congr 1; omega
  · have h := readInteger_digits false _ hne hall
    simp only [Bool.false_eq_true, if_false, hval] at h
    simp only [numToString, intToChars, hn, if_false, h]
    congr 1; omega

/-- The function `parseInt` reads the numeral of an integer below `2 ^ 53` in
size as that integer. -/
theorem parseInt_numeral (n : Int) (h : n.natAbs < 2 ^ 53) :
    parseInt (numToString n).data = JSNum.ofInt n := by
  simp only [parseInt, readInteger_numToString, ofInteger_safe n h]

/-! ## Number to string on integers -/

theorem digitsLE_fuel (f g n : Nat) (hf : n < f) (hg : n < g) : digitsLE f n = digitsLE g n := by
  induction f generalizing g n with
  | zero => omega
  | succ f ih =>
    cases g with
    | zero => omega
    | succ g =>
      by_cases h : n < 10
      · simp [digitsLE, h]
      · simp only [digitsLE, h, if_false]
        rw [ih g (n / 10) (by omega) (by omega)]

theorem natToChars_mul_ten (t : Nat) (ht : 0 < t) : natToChars (t * 10) = natToChars t ++ ['0'] := by
  have h10 : ¬ t * 10 < 10 := by omega
  have hd : digitsLE (t * 10 + 1) (t * 10) = 0 :: digitsLE (t + 1) t := by
    rw [digitsLE, if_neg h10, Nat.mul_mod_left, Nat.mul_div_cancel _ (show 0 < 10 by norm_num),
      digitsLE_fuel (t * 10) (t + 1) t (by omega) (by omega)]
  simp only [natToChars, hd, List.reverse_cons, List.map_append, List.map_cons, List.map_nil]
  rfl

theorem natToChars_mul_pow (s z : Nat) (hs : 0 < s) :
    natToChars (s * 10 ^ z) = natToChars s ++ List.replicate z '0' := by
  induction z with
  | zero => simp
  | succ z ih =>
    have hpos : 0 < s * 10 ^ z := Nat.mul_pos hs (Nat.pos_pow_of_pos _ (by norm_num))
    rw [Nat.pow_succ, ← Nat.mul_assoc, natToChars_mul_ten _ hpos, ih, List.append_assoc,
      List.replicate_succ']

theorem digitsLE_length_le (f n k : Nat) (hk : 1 ≤ k) (h : n < 10 ^ k) :
    (digitsLE f n).length ≤ k := by
  induction f generalizing n k with
  | zero => simp [digitsLE]
  | succ f ih =>
    by_cases h10 : n < 10
    · simp [digitsLE, h10]; exact hk
    · simp only [digitsLE, h10, if_false, List.length_cons]
      obtain ⟨j, rfl⟩ : ∃ j, k = j + 1 := ⟨k - 1, by omega⟩
      have hj : 1 ≤ j := by
        by_contra hc
        have : j = 0 := by omega
        subst this; simp at h; omega
      have hdiv : n / 10 < 10 ^ j := by
        rw [Nat.div_lt_iff_lt_mul (by norm_num)]
        rw [Nat.pow_succ] at h; exact h
      have := ih (n / 10) j hj hdiv
      omega

theorem natToChars_length_le (n k : Nat) (hk : 1 ≤ k) (h : n < 10 ^ k) :
    (natToChars n).length ≤ k := by
  simp only [natToChars, List.length_map, List.length_reverse]
  exact digitsLE_length_le _ n k hk h

theorem natToChars_length_pos (n : Nat) : 1 ≤ (natToChars n).length := by
  have := (natToChars_spec n).1
  cases hc : natToChars n with
  | nil => exact absurd hc this
  | cons c t => simp

/-- A try for an integer `N` below `2 ^ 53`, at a number of digits that leaves
`z` places: it succeeds exactly when `10 ^ z` divides `N`, with the digits of
`N / 10 ^ z`. -/
theorem tryDigits_integer (N kd D z : Nat) (hN : N < 2 ^ 53) (hz : D = kd + z) :
    tryDigits kd N 0 (D : Int) = if N % 10 ^ z = 0 then some (N / 10 ^ z, (D : Int)) else none := by
  have hscale : ((D : Int) - (kd : Int)) = (z : Int) := by omega
  have hnn : ¬ ((z : Int) < 0) := by omega
  have hle : (0 : Int) ≤ (z : Int) := by omega
  have hx : scaled N (-((0 : Nat) : Int)) = JSNum.fin N 0 := by simp [scaled]
  have hpos : 0 < 10 ^ z := Nat.pos_pow_of_pos _ (by norm_num)
  have hdm := Nat.div_add_mod N (10 ^ z)
  have hok : ∀ s : Nat, decide (roundDecimal false s (z : Int) = JSNum.fin N 0)
      = decide (s * 10 ^ z = N) := by
    intro s
    simp only [roundDecimal, hle, if_true, Int.toNat_ofNat, Bool.false_eq_true, if_false]
    by_cases hs : s * 10 ^ z = N
    · simp [hs, round64_exact N hN]
    · have : round64 (s * 10 ^ z) 1 ≠ JSNum.fin N 0 := fun hc => hs (round64_eq_safe _ _ hN hc)
      simp [hs, this]
  simp only [tryDigits, hscale, hnn, if_false, Int.toNat_ofNat, Nat.pow_zero, Nat.one_mul, hx, hok]
  have hhi : ¬ ((N / 10 ^ z + 1) * 10 ^ z = N) := by
    intro hc
    have : N % 10 ^ z < 10 ^ z := Nat.mod_lt _ hpos
    have h1 : (N / 10 ^ z + 1) * 10 ^ z = 10 ^ z * (N / 10 ^ z) + 10 ^ z := by ring
    omega
  by_cases hr : N % 10 ^ z = 0
  · have hlo : N / 10 ^ z * 10 ^ z = N := by
      have h1 : N / 10 ^ z * 10 ^ z = 10 ^ z * (N / 10 ^ z) := by ring
      omega
    simp [hr, hlo, hhi]
  · have hlo : ¬ (N / 10 ^ z * 10 ^ z = N) := by
      intro hc
      have h1 : N / 10 ^ z * 10 ^ z = 10 ^ z * (N / 10 ^ z) := by ring
      omega
    simp [hr, hlo, hhi]

theorem shortestAux_integer (N D : Nat) (hN : N < 2 ^ 53) (hpos : 0 < N) :
    ∀ fuel kd : Nat, kd ≤ D → D < kd + fuel →
      ∃ s z : Nat, shortestAux fuel kd N 0 (D : Int) = (s, (D : Int)) ∧ 0 < s ∧ N = s * 10 ^ z := by
  intro fuel
  induction fuel with
  | zero => intro kd h1 h2; omega
  | succ fuel ih =>
    intro kd h1 h2
    obtain ⟨z, hz⟩ : ∃ z, D = kd + z := ⟨D - kd, by omega⟩
    simp only [shortestAux, tryDigits_integer N kd D z hN hz]
    have hp : 0 < 10 ^ z := Nat.pos_pow_of_pos _ (by norm_num)
    have hdm := Nat.div_add_mod N (10 ^ z)
    by_cases hr : N % 10 ^ z = 0
    · simp only [hr, if_true]
      have hdiv : N = N / 10 ^ z * 10 ^ z := by
        have h1 : N / 10 ^ z * 10 ^ z = 10 ^ z * (N / 10 ^ z) := by ring
        omega
      refine ⟨N / 10 ^ z, z, rfl, ?_, hdiv⟩
      by_contra hc
      have h0 : N / 10 ^ z = 0 := Nat.eq_zero_of_not_pos hc
      rw [h0] at hdiv; omega
    · simp only [hr, if_false]
      have hz0 : z ≠ 0 := by
        intro h0; subst h0; exact hr (by rw [Nat.pow_zero, Nat.mod_one])
      exact ih (kd + 1) (by omega) (by omega)

/-- Number conversion writes an integer below `2 ^ 53` in size as its numeral. -/
theorem toString_ofInt (n : Int) (h : n.natAbs < 2 ^ 53) :
    (JSNum.ofInt n).toString = numToString n := by
  by_cases h0 : n = 0
  · subst h0; decide
  · have hpos : 0 < n.natAbs := Int.natAbs_pos.mpr h0
    have h16 : n.natAbs < 10 ^ 16 := lt_of_lt_of_le h (by norm_num)
    have hlen := natToChars_length_le n.natAbs 16 (by norm_num) h16
    have hlen1 := natToChars_length_pos n.natAbs
    have hge : 1 ≤ n.natAbs := hpos
    obtain ⟨s, z, hs, hs0, hsz⟩ := shortestAux_integer n.natAbs (natToChars n.natAbs).length h hpos
      17 1 hlen1 (by omega)
    have hsh : shortest n.natAbs 0 = (s, ((natToChars n.natAbs).length : Int)) := by
      simp only [shortest, decimalExponent, Nat.pow_zero, hge, if_true, Nat.div_one]
      exact hs
    have hchars : natToChars n.natAbs = natToChars s ++ List.replicate z '0' := by
      conv_lhs => rw [hsz]
      exact natToChars_mul_pow s z hs0
    have hlay : layout (natToChars s) ((natToChars n.natAbs).length : Int) = natToChars n.natAbs := by
      have hl : (natToChars n.natAbs).length = (natToChars s).length + z := by
        rw [hchars]; simp
      have c1 : ((natToChars s).length : Int) ≤ ((natToChars n.natAbs).length : Int) ∧
          ((natToChars n.natAbs).length : Int) ≤ 21 := by omega
      have c2 : (((natToChars n.natAbs).length : Int) - ((natToChars s).length : Int)).toNat = z := by
        omega
      simp only [layout, c1, and_self, if_true, c2]
      exact hchars.symm
    simp only [JSNum.ofInt, JSNum.toString, h0, if_false, hsh, hlay, numToString, intToChars]
    split <;> simp

/-! ## `parseFloat` on amounts -/

theorem takeWhile_digits_append (l r : List Char) (hl : ∀ c ∈ l, isDecimalDigit c = true)
    (hr : ∀ c t, r = c :: t → isDecimalDigit c = false) :
    (l ++ r).takeWhile isDecimalDigit = l ∧ (l ++ r).dropWhile isDecimalDigit = r := by
  induction l with
  | nil =>
    cases r with
    | nil => simp
    | cons c t => simp [List.takeWhile, List.dropWhile, hr c t rfl]
  | cons x xs ih =>
    have hx := hl x (List.mem_cons_self _ _)
    have := ih (fun c hc => hl c (List.mem_cons_of_mem _ hc))
    simp [List.takeWhile, List.dropWhile, hx, this.1, this.2]

theorem isDecimalDigit_props {c : Char} (h : isDecimalDigit c = true) :
    isWhiteSpace c = false ∧ c ≠ '-' ∧ c ≠ '+' ∧ c ≠ 'I' := by
  refine ⟨?_, ?_, ?_, ?_⟩
  · revert h; simp only [isDecimalDigit, isWhiteSpace]; intro hc
    simp only [Bool.and_eq_true, decide_eq_true_eq] at hc
    simp only [Bool.or_eq_false_iff, beq_eq_false_iff_ne, Bool.and_eq_false_iff,
      decide_eq_false_iff_not]
    omega
  · rintro rfl; revert h; decide
  · rintro rfl; revert h; decide
  · rintro rfl; revert h; decide

/-- The literal `parseFloat` finds in digits followed by something that is
not a digit. -/
theorem readLiteral_digits (neg : Bool) (ip rest : List Char) (hne : ip ≠ [])
    (hall : ∀ c ∈ ip, isDecimalDigit c = true)
    (hr : ∀ c t, rest = c :: t → isDecimalDigit c = false) :
    readLiteral (if neg then '-' :: (ip ++ rest) else ip ++ rest)
      = some (Literal.decimal neg
          (readDigits 10 digitValue (ip ++ (readFraction rest).1))
          (readExponent (readFraction rest).2 - ((readFraction rest).1.length : Int))) := by
  obtain ⟨c, t, rfl⟩ := List.exists_cons_of_ne_nil hne
  obtain ⟨hws, hm, hp, hI⟩ := isDecimalDigit_props (hall c (List.mem_cons_self _ _))
  have hsign : stripSign (trimStart (if neg then '-' :: (c :: t ++ rest) else c :: t ++ rest))
      = (neg, c :: t ++ rest) := by
    cases neg
    · simp [trimStart, List.dropWhile, hws, stripSign, hm, hp]
    · have : isWhiteSpace '-' = false := by decide
      simp [trimStart, List.dropWhile, this, stripSign]
  have hinf : infinityChars.isPrefixOf (c :: t ++ rest) = false := by
    have : infinityChars = 'I' :: "nfinity".data := rfl
    rw [this]
    simp [List.isPrefixOf, Ne.symm hI]
  obtain ⟨htake, hdrop⟩ := takeWhile_digits_append (c :: t) rest hall hr
  simp only [readLiteral, hsign, hinf, Bool.false_eq_true, if_false, htake, hdrop]
  simp

/-- The function `parseFloat` reads the numeral of an integer below `2 ^ 53` in
size as that integer. -/
theorem parseFloat_numeral (n : Int) (h : n.natAbs < 2 ^ 53) :
    parseFloat (numToString n).data = JSNum.ofInt n := by
  obtain ⟨hne, hall, hval⟩ := natToChars_spec n.natAbs
  have key : ∀ neg : Bool, parseFloat (if neg then '-' :: natToChars n.natAbs else natToChars n.natAbs)
      = if neg then JSNum.fin (-(n.natAbs : Int)) 0 else JSNum.fin (n.natAbs : Int) 0 := by
    intro neg
    have hl := readLiteral_digits neg (natToChars n.natAbs) [] hne hall (by intro c t hc; cases hc)
    simp only [List.append_nil, readFraction, readExponent, List.length_nil] at hl
    simp only [parseFloat, hl, Literal.value, roundDecimal, hval]
    simp only [Nat.cast_zero, sub_zero, le_refl, if_true, Int.toNat_zero, pow_zero, mul_one,
      round64_exact _ h]
    cases neg <;> simp [JSNum.neg]
  by_cases hn : n < 0
  · have := key true
    simp only [if_true] at this
    simp only [numToString, intToChars, hn, if_true, this, JSNum.ofInt]
    congr 1; omega
  · have := key false
    simp only [Bool.false_eq_true, if_false] at this
    simp only [numToString, intToChars, hn, if_false, this, JSNum.ofInt]
    congr 1; omega

/-- The literal `parseFloat` finds in an amount written with two decimals is
the amount: the cents times `10 ^ -2`. -/
theorem readLiteral_centsText (c : Nat) :
    readLiteral (centsText c).data = some (Literal.decimal false c (-2)) := by
  obtain ⟨hne, hall, hval⟩ := natToChars_spec (c / 100)
  have h1 : c % 100 / 10 < 10 := by omega
  have h2 : c % 10 < 10 := by omega
  obtain ⟨d1, v1, -, -, -⟩ := digitChar_val h1
  obtain ⟨d2, v2, -, -, -⟩ := digitChar_val h2
  have hdot : isDecimalDigit '.' = false := by decide
  have hl := readLiteral_digits false (natToChars (c / 100))
    ['.', digitChar (c % 100 / 10), digitChar (c % 10)] hne hall
    (by intro x t hx; cases hx; exact hdot)
  have hfrac : readFraction ['.', digitChar (c % 100 / 10), digitChar (c % 10)]
      = ([digitChar (c % 100 / 10), digitChar (c % 10)], []) := by
    simp [readFraction, List.takeWhile, List.dropWhile, d1, d2]
  simp only [Bool.false_eq_true, if_false, hfrac, readExponent] at hl
  simp only [centsText, hl, Option.some.injEq, Literal.decimal.injEq, true_and]
  constructor
  · have : readDigits 10 digitValue
        (natToChars (c / 100) ++ [digitChar (c % 100 / 10), digitChar (c % 10)])
        = (readDigits 10 digitValue (natToChars (c / 100)) * 10 + c % 100 / 10) * 10 + c % 10 := by
      simp only [readDigits, List.foldl_append, List.foldl_cons, List.foldl_nil, v1, v2]
    rw [this, hval]; omega
  · simp

theorem floorLog2_cents (c : Nat) (hc : c < 100 * 2 ^ 46) : floorLog2 c 100 ≤ 45 := by
  have h53 : c < 2 ^ 53 := lt_of_lt_of_le hc (by norm_num)
  have hb := bitLen_le_of_lt h53
  have h7 : bitLen 100 = 7 := by decide
  have hard : (0 : Int) ≤ (bitLen c : Int) - ((7 : Nat) : Int) →
      100 * 2 ^ ((bitLen c : Int) - ((7 : Nat) : Int)).toNat ≤ c →
      (bitLen c : Int) - ((7 : Nat) : Int) ≤ 45 := by
    intro hnn hcond
    by_contra hgt
    have h46 : 46 ≤ ((bitLen c : Int) - ((7 : Nat) : Int)).toNat := by omega
    have h1 : 2 ^ 46 ≤ 2 ^ ((bitLen c : Int) - ((7 : Nat) : Int)).toNat :=
      Nat.pow_le_pow_right (by norm_num) h46
    have h2 : 100 * 2 ^ 46 ≤ 100 * 2 ^ ((bitLen c : Int) - ((7 : Nat) : Int)).toNat :=
      Nat.mul_le_mul_left _ h1
    omega
  simp only [floorLog2, h7]
  split_ifs with hA hB hC
  · exact hard hA hB
  · omega
  · omega
  · omega

/-- Against an amount below `2 ^ 46` written with two decimals, the comparison
of Number values is the comparison of the amounts: rounding the amount to
binary64 moves it by less than a cent. -/
theorem lt_cents (P : Int) (c : Nat) (hc : c < 100 * 2 ^ 46) :
    JSNum.lt (JSNum.ofInt P) (round64 c 100).orZero = decide (100 * P < (c : Int)) := by
  by_cases h0 : c = 0
  · subst h0
    simp only [round64, if_true, JSNum.orZero, JSNum.lt, JSNum.ofInt]
    simp
    constructor <;> intro h <;> omega
  · have hfl := floorLog2_cents c hc
    obtain ⟨j, hj, hj7⟩ : ∃ j : Nat, max (floorLog2 c 100 - 52) (-1074) = -(j : Int) ∧ 7 ≤ j :=
      ⟨(-(max (floorLog2 c 100 - 52) (-1074))).toNat, by omega, by omega⟩
    have hneg : -(j : Int) < 0 := by omega
    have hnn : ¬ (0 : Int) ≤ -(j : Int) := by omega
    simp only [round64, h0, if_false, hj, roundAt, hneg, if_true, neg_neg, Int.toNat_ofNat, hnn,
      false_and, scaled]
    generalize hq : c * 2 ^ j / 100 = q
    generalize hr : c * 2 ^ j % 100 = r
    have hdm : 100 * q + r = c * 2 ^ j := by rw [← hq, ← hr]; exact Nat.div_add_mod _ _
    have hr100 : r < 100 := by rw [← hr]; exact Nat.mod_lt _ (by norm_num)
    have ht : 128 ≤ 2 ^ j := by
      calc 128 = 2 ^ 7 := by norm_num
        _ ≤ 2 ^ j := Nat.pow_le_pow_right (by norm_num) hj7
    generalize hm : (if 100 < 2 * r ∨ 2 * r = 100 ∧ q % 2 = 1 then q + 1 else q) = m
    have hm1 : q ≤ m := by rw [← hm]; split <;> omega
    have hm2 : m ≤ q + 1 := by rw [← hm]; split <;> omega
    have hm3 : m = q + 1 → 50 ≤ r := by
      intro h; rw [← hm] at h; split at h <;> omega
    have hv := reduce_value m j
    generalize (reduce m j).1 = n' at hv
    generalize (reduce m j).2 = k' at hv
    simp only [JSNum.orZero, JSNum.lt, JSNum.ofInt, pow_zero, mul_one, decide_eq_decide]
    have hu : (0 : Int) < 2 ^ k' := by positivity
    have htpos : (0 : Int) < 2 ^ j := by positivity
    have hvI : (n' : Int) * 2 ^ j = (m : Int) * 2 ^ k' := by exact_mod_cast hv
    have hdmI : (100 : Int) * q + r = (c : Int) * 2 ^ j := by exact_mod_cast hdm
    have htI : (128 : Int) ≤ 2 ^ j := by exact_mod_cast ht
    have step1 : P * 2 ^ k' < (n' : Int) ↔ P * 2 ^ j < (m : Int) := by
      constructor
      · intro h
        have h1 : P * 2 ^ k' * 2 ^ j < (n' : Int) * 2 ^ j := mul_lt_mul_of_pos_right h htpos
        rw [hvI] at h1
        have h2 : (P * 2 ^ j) * 2 ^ k' < (m : Int) * 2 ^ k' := by linarith
        exact lt_of_mul_lt_mul_right h2 (le_of_lt hu)
      · intro h
        have h1 : (P * 2 ^ j) * 2 ^ k' < (m : Int) * 2 ^ k' := mul_lt_mul_of_pos_right h hu
        rw [← hvI] at h1
        have h2 : (P * 2 ^ k') * 2 ^ j < (n' : Int) * 2 ^ j := by linarith
        exact lt_of_mul_lt_mul_right h2 (le_of_lt htpos)
    rw [step1]
    constructor
    · intro h
      by_contra hcon
      have hle : (c : Int) ≤ 100 * P := by omega
      have h1 : (c : Int) * 2 ^ j ≤ 100 * P * 2 ^ j := mul_le_mul_of_nonneg_right hle (le_of_lt htpos)
      have hm2I : (m : Int) ≤ q + 1 := by exact_mod_cast hm2
      by_cases hmq : m = q + 1
      · have := hm3 hmq
        have hmI : (m : Int) = q + 1 := by exact_mod_cast hmq
        nlinarith
      · have hmI : (m : Int) ≤ q := by
          have : m ≤ q := by omega
          exact_mod_cast this
        nlinarith
    · intro h
      have hle : 100 * P + 1 ≤ (c : Int) := by omega
      have h1 : (100 * P + 1) * 2 ^ j ≤ (c : Int) * 2 ^ j :=
        mul_le_mul_of_nonneg_right hle (le_of_lt htpos)
      have hm1I : (q : Int) ≤ m := by exact_mod_cast hm1
      have hrI : (r : Int) < 100 := by exact_mod_cast hr100
      nlinarith

/-! ## Trimming -/

theorem trimStart_trimEnd_trimStart (l : List Char) :
    trimStart (trimEnd (trimStart l)) = trimEnd (trimStart l) := by
  have hpre : trimEnd (trimStart l) <+: trimStart l := by
    simpa [trimEnd, List.rdropWhile] using List.rdropWhile_prefix isWhiteSpace (trimStart l)
  cases hb : trimEnd (trimStart l) with
  | nil => rfl
  | cons x t =>
    rw [hb] at hpre
    obtain ⟨s, hs⟩ := hpre
    have hne : List.dropWhile isWhiteSpace l ≠ [] := by
      intro h; simp [trimStart, h] at hs
    have hx := List.head_dropWhile_not isWhiteSpace l hne
    have hhead : (List.dropWhile isWhiteSpace l).head hne = x := by
      have : List.dropWhile isWhiteSpace l = x :: (t ++ s) := by
        simpa [trimStart] using hs.symm
      simp [this]
    rw [hhead] at hx
    simp [trimStart, List.dropWhile, hx]

/-- A trimmed string has no white space left at either end: trimming it again
changes nothing. -/
theorem trim_trim (s : String) : trim (trim s) = trim s := by
  simp only [trim]
  rw [trimStart_trimEnd_trimStart]
  congr 1
  simp [trimEnd, List.dropWhile_idempotent]

/-! ## The two collecting loops -/

theorem truthy_iff (s : String) : truthy s = true ↔ s ≠ "" := by
  cases s with
  | mk l => cases l <;> simp [truthy, String.ext_iff]

theorem collectItems_eq (rows : List ProductRow) :
    collectItems rows
      = (rows.filter (fun r => decide (trim r.product_code ≠ ""))).map
          (fun r => { product_code := trim r.product_code,
                      quantity := (parseInt r.quantity.data).orZero }) := by
  have key : ∀ (rs : List ProductRow) (acc : List LineItem),
      rs.foldl
        (fun items r =>
          let code := trim r.product_code
          let qty := (parseInt r.quantity.data).orZero
          if truthy code then items ++ [{ product_code := code, quantity := qty }] else items)
        acc
      = acc ++ (rs.filter (fun r => decide (trim r.product_code ≠ ""))).map
          (fun r => { product_code := trim r.product_code,
                      quantity := (parseInt r.quantity.data).orZero }) := by
    intro rs
    induction rs with
    | nil => intro acc; simp
    | cons r rs ih =>
      intro acc
      rw [List.foldl_cons, ih]
      by_cases h : trim r.product_code = ""
      · have ht : truthy (trim r.product_code) = false := by
          rw [← Bool.not_eq_true, truthy_iff]; simpa using h
        have hf : List.filter (fun r => decide (trim r.product_code ≠ "")) (r :: rs)
            = List.filter (fun r => decide (trim r.product_code ≠ "")) rs := by
          simp [List.filter_cons, h]
        rw [hf]
        simp only [ht, Bool.false_eq_true, if_false]
      · have ht : truthy (trim r.product_code) = true := (truthy_iff _).mpr h
        simp [ht, h]
  simpa [collectItems] using key rows []

theorem collectDenominations_eq (denoms : List DenomInput) :
    collectDenominations denoms
      = (denoms.filter (fun d => JSNum.lt (JSNum.ofInt 0) d.count)).map
          (fun d => { value := d.face, count := d.count }) := by
  have key : ∀ (ds : List DenomInput) (acc : List Denomination),
      ds.foldl
        (fun denominations d =>
          let count := d.count
          if JSNum.lt (JSNum.ofInt 0) count then
            denominations ++ [{ value := d.face, count := count }]
          else denominations)
        acc
      = acc ++ (ds.filter (fun d => JSNum.lt (JSNum.ofInt 0) d.count)).map
          (fun d => { value := d.face, count := d.count }) := by
    intro ds
    induction ds with
    | nil => intro acc; simp
    | cons d ds ih =>
      intro acc
      rw [List.foldl_cons, ih]
      by_cases h : JSNum.lt (JSNum.ofInt 0) d.count = true
      · simp [h]
      · simp [h]
  simpa [collectDenominations] using key denoms []

/-! ## Calculate total -/

theorem collectItems_nil_of_blank (rows : List ProductRow)
    (h : ∀ r ∈ rows, trim r.product_code = "") : collectItems rows = [] := by
  rw [collectItems_eq, List.map_eq_nil_iff, List.filter_eq_nil_iff]
  intro r hr
  simp [h r hr]

theorem collectItems_ne_nil (rows : List ProductRow)
    (h : ∃ r ∈ rows, trim r.product_code ≠ "") : collectItems rows ≠ [] := by
  obtain ⟨r, hr, hne⟩ := h
  rw [collectItems_eq]
  intro hnil
  rw [List.map_eq_nil_iff, List.filter_eq_nil_iff] at hnil
  exact hnil r hr (by simpa using hne)

/-- C3: `calculateTotal` validates in order and stops at the first failure.  A
page whose trimmed customer email is empty gets the error "Customer email is
required." whatever its rows hold, and a page with a non-empty trimmed email
whose rows all have an empty trimmed product code gets "Add at least one
product."; in both cases no request is sent and none is put in flight. -/
theorem calculateTotal_validation (p : Page) :
    (trim p.customerEmail = "" →
      (calculateTotal p).1.errorText = "Customer email is required." ∧
      (calculateTotal p).1.errorHidden = false ∧
      (calculateTotal p).2 = none ∧
      (calculateTotal p).1.calcInFlight = p.calcInFlight) ∧
    (trim p.customerEmail ≠ "" → (∀ r ∈ p.rows, trim r.product_code = "") →
      (calculateTotal p).1.errorText = "Add at least one product." ∧
      (calculateTotal p).1.errorHidden = false ∧
      (calculateTotal p).2 = none ∧
      (calculateTotal p).1.calcInFlight = p.calcInFlight) := by
  constructor
  · intro h
    have ht : truthy (trim p.customerEmail) = false := by
      rw [← Bool.not_eq_true, truthy_iff]; simpa using h
    simp [calculateTotal, clearError, showError, ErrorValue.render, ht]
  · intro h hrows
    have ht : truthy (trim p.customerEmail) = true := (truthy_iff _).mpr h
    have hi : collectItems p.rows = [] := collectItems_nil_of_blank _ hrows
    simp [calculateTotal, clearError, showError, ErrorValue.render, ht, hi]

/-- C4: with a non-empty trimmed email and at least one row whose trimmed
product code is non-empty, `calculateTotal` sends one request: its
`customer_email` is the trimmed email, its `items` are the rows with a
non-empty trimmed product code, in row order, each with the trimmed code and
the quantity `parseInt` reads from the row (0 when it reads none), and it has
an `order_code` exactly when a non-empty one is stored, which it then equals.
A quantity field that holds the numeral of an integer below `2 ^ 53` in size
is read as that integer. -/
theorem calculateTotal_request (p : Page) (hemail : trim p.customerEmail ≠ "")
    (hrow : ∃ r ∈ p.rows, trim r.product_code ≠ "") :
    (calculateTotal p).2 = some
      { customer_email := trim p.customerEmail
        items := (p.rows.filter (fun r => decide (trim r.product_code ≠ ""))).map
          (fun r => { product_code := trim r.product_code,
                      quantity := (parseInt r.quantity.data).orZero })
        order_code := if p.orderCode = "" then none else some p.orderCode } ∧
    (calculateTotal p).1.calcInFlight = (calculateTotal p).2 ∧
    (calculateTotal p).1.errorHidden = true ∧
    (∀ r ∈ p.rows, ∀ n : Int, n.natAbs < 2 ^ 53 → r.quantity = numToString n →
      (parseInt r.quantity.data).orZero = JSNum.ofInt n) := by
  have ht : truthy (trim p.customerEmail) = true := (truthy_iff _).mpr hemail
  have hi : collectItems p.rows ≠ [] := collectItems_ne_nil _ hrow
  have hoc : (if truthy p.orderCode then some p.orderCode else none)
      = (if p.orderCode = "" then none else some p.orderCode) := by
    by_cases h : p.orderCode = ""
    · have : truthy p.orderCode = false := by
        rw [← Bool.not_eq_true, truthy_iff]; simpa using h
      rw [if_pos h, if_neg (by simp [this])]
    · rw [if_neg h, if_pos ((truthy_iff _).mpr h)]
  refine ⟨?_, ?_, ?_, ?_⟩
  · simp only [calculateTotal, clearError, ht, Bool.not_true, Bool.false_eq_true, if_false,
      List.length_eq_zero, hi, hoc]
    rw [collectItems_eq]
  · simp [calculateTotal, clearError, ht, hi]
  · simp [calculateTotal, clearError, ht, hi]
  · intro r _ n hb hn
    rw [hn, parseInt_numeral n hb]; rfl

/-- C4 at the page of the specification: email `a@b.com` and one row `P001`
with quantity 2. -/
theorem calculateTotal_request_witness :
    (calculateTotal (run (freshPage [100, 50])
        [Event.email "a@b.com", Event.productCode 0 "P001", Event.quantity 0 "2"])).2
      = some { customer_email := "a@b.com",
               items := [{ product_code := "P001", quantity := JSNum.ofInt 2 }],
               order_code := none } :=
  ((calculateTotal_request
    (run (freshPage [100, 50])
      [Event.email "a@b.com", Event.productCode 0 "P001", Event.quantity 0 "2"])
    (by decide) (by decide)).1).trans (by decide)

/-- What `calculateTotal` sends, when it sends. -/
theorem calculateTotal_sent (p : Page) (req : CalcRequest)
    (h : (calculateTotal p).2 = some req) : req.items = collectItems p.rows := by
  unfold calculateTotal at h
  simp only [clearError] at h
  split at h
  · simp at h
  · split at h
    · simp at h
    · simp only [Option.some.injEq] at h
      rw [← h]

/-- C5, as stated, fails: with quantity fields holding `0`, nothing and `-3`
the request carries the quantities 0, 0 and -3, none of them a valid line
item. -/
theorem invalid_quantity_sent :
    (calculateTotal quantityPage).2 = some
      { customer_email := "a@b.com"
        items := [{ product_code := "P001", quantity := JSNum.ofInt 0 },
                  { product_code := "P002", quantity := JSNum.ofInt 0 },
                  { product_code := "P003", quantity := JSNum.ofInt (-3) }]
        order_code := none } ∧
    ¬ ValidLineItem { product_code := "P001", quantity := JSNum.ofInt 0 } ∧
    ¬ ValidLineItem { product_code := "P002", quantity := JSNum.ofInt 0 } ∧
    ¬ ValidLineItem { product_code := "P003", quantity := JSNum.ofInt (-3) } := by
  decide

/-- C5, amended: every line item `calculateTotal` sends comes from a row; its
product code is the trimmed code of that row, is non-empty and has no white
space at either end; its quantity is the number `parseInt` reads from the
quantity field of that row, or 0 when it reads none, so that a field holding
the numeral of an integer `n` below `2 ^ 53` in size is sent as `n`, and is a
valid quantity when `n` is at least 1. -/
theorem sent_items_from_rows (p : Page) (req : CalcRequest)
    (h : (calculateTotal p).2 = some req) :
    ∀ it ∈ req.items,
      it.product_code ≠ "" ∧ trim it.product_code = it.product_code ∧
      ∃ r ∈ p.rows, it.product_code = trim r.product_code ∧
        it.quantity = (parseInt r.quantity.data).orZero ∧
        (readInteger r.quantity.data = none → it.quantity = JSNum.ofInt 0) ∧
        (∀ n : Int, n.natAbs < 2 ^ 53 → r.quantity = numToString n →
          it.quantity = JSNum.ofInt n ∧ (1 ≤ n → ValidLineItem it)) := by
  intro it hit
  rw [calculateTotal_sent p req h, collectItems_eq] at hit
  simp only [List.mem_map, List.mem_filter, decide_eq_true_eq] at hit
  obtain ⟨r, ⟨hr, hne⟩, rfl⟩ := hit
  refine ⟨hne, trim_trim _, r, hr, rfl, rfl, ?_, ?_⟩
  · intro hnone; simp [parseInt, hnone, JSNum.orZero, JSNum.ofInt]
  · intro n hb hn
    have hq : (parseInt r.quantity.data).orZero = JSNum.ofInt n := by
      rw [hn, parseInt_numeral n hb]; rfl
    refine ⟨hq, fun h1 => ⟨hne, trim_trim _, ?_⟩⟩
    simp only [hq, JSNum.ofInt, JSNum.isIntegerFrom, decide_eq_true_eq]
    exact h1

/-- C5, amended, at the page of the specification: the quantity field holds
`2` and the item is sent with quantity 2. -/
theorem sent_items_from_rows_witness :
    ({ product_code := "P001", quantity := JSNum.ofInt 2 } : LineItem).product_code ≠ "" ∧
    trim ({ product_code := "P001", quantity := JSNum.ofInt 2 } : LineItem).product_code
      = ({ product_code := "P001", quantity := JSNum.ofInt 2 } : LineItem).product_code ∧
    ∃ r ∈ (run (freshPage [100, 50])
        [Event.email "a@b.com", Event.productCode 0 " P001 ", Event.quantity 0 "2"]).rows,
      ({ product_code := "P001", quantity := JSNum.ofInt 2 } : LineItem).product_code
        = trim r.product_code ∧
      ({ product_code := "P001", quantity := JSNum.ofInt 2 } : LineItem).quantity
        = (parseInt r.quantity.data).orZero ∧
      (readInteger r.quantity.data = none →
        ({ product_code := "P001", quantity := JSNum.ofInt 2 } : LineItem).quantity
          = JSNum.ofInt 0) ∧
      (∀ n : Int, n.natAbs < 2 ^ 53 → r.quantity = numToString n →
        ({ product_code := "P001", quantity := JSNum.ofInt 2 } : LineItem).quantity
          = JSNum.ofInt n ∧
        (1 ≤ n → ValidLineItem { product_code := "P001", quantity := JSNum.ofInt 2 })) :=
  sent_items_from_rows
    (run (freshPage [100, 50])
      [Event.email "a@b.com", Event.productCode 0 " P001 ", Event.quantity 0 "2"])
    { customer_email := "a@b.com",
      items := [{ product_code := "P001", quantity := JSNum.ofInt 2 }],
      order_code := none }
    (by decide) { product_code := "P001", quantity := JSNum.ofInt 2 } (by decide)

/-! ## The paid amount in integers -/

theorem face_safe (d : DenomInput) (h : d.value.natAbs < 2 ^ 53) :
    d.face = JSNum.ofInt d.value :=
  parseInt_numeral d.value h

theorem count_safe (d : DenomInput) (h : d.exactCount.natAbs < 2 ^ 53) :
    d.count = JSNum.ofInt d.exactCount := by
  simp only [DenomInput.count, DenomInput.exactCount, parseInt] at h ⊢
  cases hr : readInteger d.val.data with
  | none => rfl
  | some n =>
    rw [hr] at h
    simp only [Option.getD_some] at h ⊢
    rw [ofInteger_safe n h]; rfl

theorem slotSum_natAbs_le (denoms : List DenomInput) :
    (slotSum denoms).natAbs ≤ (denoms.map (fun d => (d.value * d.exactCount).natAbs)).sum := by
  induction denoms with
  | nil => simp [slotSum]
  | cons d ds ih =>
    simp only [slotSum, List.map_cons, List.sum_cons] at ih ⊢
    have := Int.natAbs_add_le (d.value * d.exactCount)
      (List.map (fun d => d.value * d.exactCount) ds).sum
    omega

/-- With safe slots the loop of `updatePaidAmount` computes the sum of face
value times count exactly. -/
theorem paidTotal_safe (denoms : List DenomInput) (h : SafeSlots denoms) :
    paidTotal denoms = JSNum.ofInt (slotSum denoms) := by
  have key : ∀ (ds : List DenomInput) (acc : Int),
      (∀ d ∈ ds, d.value.natAbs < 2 ^ 53 ∧ d.exactCount.natAbs < 2 ^ 53) →
      acc.natAbs + (ds.map (fun d => (d.value * d.exactCount).natAbs)).sum < 2 ^ 53 →
      ds.foldl (fun total d => JSNum.add total (JSNum.mul d.face.orZero d.count))
        (JSNum.ofInt acc) = JSNum.ofInt (acc + slotSum ds) := by
    intro ds
    induction ds with
    | nil => intro acc _ _; simp [slotSum]
    | cons d ds ih =>
      intro acc hb hs
      obtain ⟨hv, hc⟩ := hb d (List.mem_cons_self _ _)
      simp only [List.map_cons, List.sum_cons] at hs
      have hprod : (d.value * d.exactCount).natAbs < 2 ^ 53 := by omega
      have hadd : (acc + d.value * d.exactCount).natAbs < 2 ^ 53 := by
        have := Int.natAbs_add_le acc (d.value * d.exactCount)
        omega
      rw [List.foldl_cons, face_safe d hv, count_safe d hc, orZero_ofInt, mul_safe _ _ hprod,
        add_safe _ _ hadd, ih _ (fun x hx => hb x (List.mem_cons_of_mem _ hx))]
      · simp only [slotSum, List.map_cons, List.sum_cons]; congr 1; ring
      · have := Int.natAbs_add_le acc (d.value * d.exactCount)
        omega
  have := key denoms 0 h.1 (by simpa using h.2)
  simpa [paidTotal] using this

theorem slotSum_safe {denoms : List DenomInput} (h : SafeSlots denoms) :
    (slotSum denoms).natAbs < 2 ^ 53 :=
  lt_of_le_of_lt (slotSum_natAbs_le denoms) h.2

/-- With safe slots the paid amount written by `updatePaidAmount` is the
numeral of the sum and reads back as the sum. -/
theorem paid_of_safe (denoms : List DenomInput) (h : SafeSlots denoms) :
    (paidTotal denoms).toString = numToString (slotSum denoms) ∧
    (parseInt (paidTotal denoms).toString.data).orZero = JSNum.ofInt (slotSum denoms) := by
  have hs := slotSum_safe h
  rw [paidTotal_safe denoms h, toString_ofInt _ hs, parseInt_numeral _ hs]
  exact ⟨rfl, rfl⟩

/-! ## Paid amount -/

set_option maxRecDepth 100000 in
set_option exponentiation.threshold 2000 in
/-- C9, as stated, fails: with face value 3 and count 6004799503160661 the
field shows 18014398509481984 and the sum is 18014398509481983; with face
value 100 and count 100000000000000000000 the field shows `1e+22`, which reads
back as 1. -/
theorem paid_amount_rounded :
    (inputDenom 0 "6004799503160661" (freshPage [3])).paidAmount = "18014398509481984" ∧
    numToString (slotSum (inputDenom 0 "6004799503160661" (freshPage [3])).denoms)
      = "18014398509481983" ∧
    (inputDenom 0 "100000000000000000000" (freshPage [100])).paidAmount = "1e+22" ∧
    (inputDenom 0 "100000000000000000000" (freshPage [100])).paid = JSNum.ofInt 1 ∧
    slotSum (inputDenom 0 "100000000000000000000" (freshPage [100])).denoms
      = 10000000000000000000000 := by
  decide

/-- C9, amended: the paid amount is the sum of value times count as long as
the arithmetic stays below `2 ^ 53`.  After an input event on a denomination
slot, if every face value, every count and the sum of the sizes of their
products are below `2 ^ 53`, the displayed paid amount is the numeral of the
sum, over all slots, of the face value times the integer the slot holds, and
it reads back as that sum; a slot whose text is empty or holds no integer
contributes 0; face values 100 and 50 with counts 1 and 2 display 200. -/
theorem paid_amount_is_sum (p : Page) (i : Nat) (text : String)
    (hsafe : SafeSlots (inputDenom i text p).denoms) :
    (inputDenom i text p).denoms = updateAt (fun d => { d with val := text }) i p.denoms ∧
    (inputDenom i text p).paidAmount
      = numToString (((inputDenom i text p).denoms.map
          (fun d => d.value * (readInteger d.val.data).getD 0)).sum) ∧
    (inputDenom i text p).paid
      = JSNum.ofInt (((inputDenom i text p).denoms.map
          (fun d => d.value * (readInteger d.val.data).getD 0)).sum) ∧
    (∀ d : DenomInput, readInteger d.val.data = none →
      d.value * (readInteger d.val.data).getD 0 = 0) ∧
    readInteger "".data = none := by
  refine ⟨rfl, ?_, ?_, ?_, by decide⟩
  · exact (paid_of_safe _ hsafe).1
  · exact (paid_of_safe _ hsafe).2
  · intro d hd
    simp [hd]

/-- C9, amended, at the slots of the specification: face values 100 and 50
with counts 1 and 2 display 200. -/
theorem paid_amount_is_sum_witness :
    (inputDenom 1 "2" (inputDenom 0 "1" (freshPage [100, 50]))).paidAmount
      = numToString (((inputDenom 1 "2" (inputDenom 0 "1" (freshPage [100, 50]))).denoms.map
          (fun d => d.value * (readInteger d.val.data).getD 0)).sum) ∧
    numToString (((inputDenom 1 "2" (inputDenom 0 "1" (freshPage [100, 50]))).denoms.map
          (fun d => d.value * (readInteger d.val.data).getD 0)).sum) = "200" :=
  ⟨(paid_amount_is_sum (inputDenom 0 "1" (freshPage [100, 50])) 1 "2" (by decide)).2.1,
    by decide⟩

/-! ## Generate bill -/

theorem collectDenominations_nil_iff (denoms : List DenomInput) :
    collectDenominations denoms = [] ↔
      ∀ d ∈ denoms, JSNum.lt (JSNum.ofInt 0) d.count = false := by
  rw [collectDenominations_eq, List.map_eq_nil_iff, List.filter_eq_nil_iff]
  simp

theorem total_cents (p : Page) (c : Nat) (h : p.totalAmount = centsText c) :
    p.total = (round64 c 100).orZero := by
  simp only [Page.total, parseFloat, h, readLiteral_centsText, Literal.value, roundDecimal]
  simp

theorem total_numeral (p : Page) (T : Int) (hT : T.natAbs < 2 ^ 53)
    (h : p.totalAmount = numToString T) : p.total = JSNum.ofInt T := by
  simp only [Page.total, h, parseFloat_numeral T hT]
  rfl

theorem paid_numeral (p : Page) (P : Int) (hP : P.natAbs < 2 ^ 53)
    (h : p.paidAmount = numToString P) : p.paid = JSNum.ofInt P := by
  simp only [Page.paid, h, parseInt_numeral P hP]
  rfl

/-- C2: `generateBill` checks its preconditions in a fixed order and sends a
request exactly when all hold.  (1) With an empty stored order code the error
is "Please calculate total first.".  (2) Otherwise, when no denomination slot
has a count above 0, it is "Enter at least one denomination count.".
(3) Otherwise, when the paid amount is less than the displayed total, both as
the script reads them, it is "Paid amount (paid) is less than total amount
(total). Please add more denominations." with the two numbers written out.
In these three cases no request is sent.  (4) In every other case no error is
shown and one request is sent, with the order code and exactly the slots whose
count is above 0, as value and count, in slot order.  (5) For a paid amount
that is the numeral of an integer below `2 ^ 53` in size and a total that is
an amount below `2 ^ 46` written with two decimals, or the numeral of an
integer below `2 ^ 53` in size, "less than" is the order of the amounts
themselves, the paid amount is written out as its numeral, and a slot holding
an integer below `2 ^ 53` in size counts as above 0 exactly when that integer
is. -/
theorem generateBill_preconditions (p : Page) :
    (p.orderCode = "" →
      (generateBill p).1.errorText = "Please calculate total first." ∧
      (generateBill p).1.errorHidden = false ∧
      (generateBill p).2 = none ∧ (generateBill p).1.genInFlight = p.genInFlight) ∧
    (p.orderCode ≠ "" → (∀ d ∈ p.denoms, JSNum.lt (JSNum.ofInt 0) d.count = false) →
      (generateBill p).1.errorText = "Enter at least one denomination count." ∧
      (generateBill p).1.errorHidden = false ∧
      (generateBill p).2 = none ∧ (generateBill p).1.genInFlight = p.genInFlight) ∧
    (p.orderCode ≠ "" → (∃ d ∈ p.denoms, JSNum.lt (JSNum.ofInt 0) d.count = true) →
      JSNum.lt p.paid p.total = true →
      (generateBill p).1.errorText =
        "Paid amount (" ++ p.paid.toString ++ ") is less than total amount (" ++
          p.total.toString ++ "). Please add more denominations." ∧
      (generateBill p).1.errorHidden = false ∧
      (generateBill p).2 = none ∧ (generateBill p).1.genInFlight = p.genInFlight) ∧
    (p.orderCode ≠ "" → (∃ d ∈ p.denoms, JSNum.lt (JSNum.ofInt 0) d.count = true) →
      JSNum.lt p.paid p.total = false →
      (generateBill p).2 = some
        { order_code := p.orderCode
          denominations := (p.denoms.filter (fun d => JSNum.lt (JSNum.ofInt 0) d.count)).map
            (fun d => { value := d.face, count := d.count }) } ∧
      (generateBill p).1.genInFlight = (generateBill p).2 ∧
      (generateBill p).1.errorHidden = true ∧ (generateBill p).1.errorText = "") ∧
    (∀ P : Int, P.natAbs < 2 ^ 53 → p.paidAmount = numToString P →
      p.paid.toString = numToString P ∧
      (∀ c : Nat, c < 100 * 2 ^ 46 → p.totalAmount = centsText c →
        (JSNum.lt p.paid p.total = true ↔ 100 * P < (c : Int))) ∧
      (∀ T : Int, T.natAbs < 2 ^ 53 → p.totalAmount = numToString T →
        (JSNum.lt p.paid p.total = true ↔ P < T))) ∧
    (∀ d ∈ p.denoms, d.exactCount.natAbs < 2 ^ 53 →
      (JSNum.lt (JSNum.ofInt 0) d.count = true ↔ 0 < d.exactCount)) := by
  refine ⟨?_, ?_, ?_, ?_, ?_, ?_⟩
  · intro h
    have ht : truthy p.orderCode = false := by
      rw [← Bool.not_eq_true, truthy_iff]; simpa using h
    simp [generateBill, clearError, showError, ErrorValue.render, ht]
  · intro h hnone
    have ht : truthy p.orderCode = true := (truthy_iff _).mpr h
    have hd : collectDenominations p.denoms = [] := (collectDenominations_nil_iff _).mpr hnone
    simp [generateBill, clearError, showError, ErrorValue.render, ht, hd]
  · intro h hsome hlt
    have ht : truthy p.orderCode = true := (truthy_iff _).mpr h
    have hd : collectDenominations p.denoms ≠ [] := by
      rw [Ne, collectDenominations_nil_iff]; push_neg
      obtain ⟨d, hd, hc⟩ := hsome
      exact ⟨d, hd, by simp [hc]⟩
    simp only [Page.paid, Page.total] at hlt
    simp [generateBill, clearError, showError, ErrorValue.render, paidLessMessage, Page.paid,
      Page.total, ht, hd, hlt]
  · intro h hsome hlt
    have ht : truthy p.orderCode = true := (truthy_iff _).mpr h
    have hd : collectDenominations p.denoms ≠ [] := by
      rw [Ne, collectDenominations_nil_iff]; push_neg
      obtain ⟨d, hd, hc⟩ := hsome
      exact ⟨d, hd, by simp [hc]⟩
    simp only [Page.paid, Page.total] at hlt
    simp [generateBill, clearError, Page.paid, Page.total, ht, hd, hlt]
    exact collectDenominations_eq _
  · intro P hP hpaid
    have hp := paid_numeral p P hP hpaid
    refine ⟨by rw [hp, toString_ofInt P hP], ?_, ?_⟩
    · intro c hc htot
      rw [hp, total_cents p c htot, lt_cents P c hc, decide_eq_true_eq]
    · intro T hT htot
      rw [hp, total_numeral p T hT htot, lt_ofInt, decide_eq_true_eq]
  · intro d _ hc
    rw [count_safe d hc, lt_ofInt, decide_eq_true_eq]

set_option maxRecDepth 100000 in
set_option exponentiation.threshold 2000 in
/-- C2 at the pages of the specification and next to them: total 110 with 100
paid is refused with the message that names both amounts; so is total 110.50
with 110 paid; a total of `1e21` is written `1e+21`; and with 200 paid the
request for order `O1` carries two notes of 100. -/
theorem generateBill_preconditions_witness :
    ((generateBill (pageAt [100, 50] "110" [(0, "1")])).1.errorText
      = "Paid amount (100) is less than total amount (110). Please add more denominations.") ∧
    ((generateBill (pageAt [100, 10] "110.50" [(0, "1"), (1, "1")])).1.errorText
      = "Paid amount (110) is less than total amount (110.5). Please add more denominations.") ∧
    ((generateBill (pageAt [100, 50] "1e21" [(1, "1")])).1.errorText
      = "Paid amount (50) is less than total amount (1e+21). Please add more denominations.") ∧
    ((generateBill (pageAt [100, 50] "110" [(0, "2")])).2
      = some { order_code := "O1",
               denominations := [{ value := JSNum.ofInt 100, count := JSNum.ofInt 2 }] }) ∧
    (JSNum.lt (pageAt [100, 10] "110.50" [(0, "1"), (1, "1")]).paid
        (pageAt [100, 10] "110.50" [(0, "1"), (1, "1")]).total = true ↔
      100 * (110 : Int) < ((11050 : Nat) : Int)) :=
  ⟨(((generateBill_preconditions (pageAt [100, 50] "110" [(0, "1")])).2.2.1
      (by decide) (by decide) (by decide)).1).trans (by decide),
   (((generateBill_preconditions (pageAt [100, 10] "110.50" [(0, "1"), (1, "1")])).2.2.1
      (by decide) (by decide) (by decide)).1).trans (by decide),
   (((generateBill_preconditions (pageAt [100, 50] "1e21" [(1, "1")])).2.2.1
      (by decide) (by decide) (by decide)).1).trans (by decide),
   (((generateBill_preconditions (pageAt [100, 50] "110" [(0, "2")])).2.2.2.1
      (by decide) (by decide) (by decide)).1).trans (by decide),
   ((generateBill_preconditions (pageAt [100, 10] "110.50" [(0, "1"), (1, "1")])).2.2.2.2.1
      110 (by decide) (by decide)).2.1 11050 (by decide) (by decide)⟩

/-! ## Payment covers the total -/

theorem safeSlots_of_zero (denoms : List DenomInput)
    (hv : ∀ d ∈ denoms, 0 < d.value ∧ d.value < 2 ^ 53)
    (hc : ∀ d ∈ denoms, d.exactCount = 0) : SafeSlots denoms ∧ slotSum denoms = 0 := by
  refine ⟨⟨?_, ?_⟩, ?_⟩
  · intro d hd
    obtain ⟨h1, h2⟩ := hv d hd
    rw [hc d hd]
    constructor
    · omega
    · simp
  · have : (denoms.map (fun d => (d.value * d.exactCount).natAbs)).sum = 0 := by
      apply List.sum_eq_zero
      intro x hx
      simp only [List.mem_map] at hx
      obtain ⟨d, hd, rfl⟩ := hx
      rw [hc d hd]; simp
    rw [this]; norm_num
  · unfold slotSum
    apply List.sum_eq_zero
    intro x hx
    simp only [List.mem_map] at hx
    obtain ⟨d, hd, rfl⟩ := hx
    rw [hc d hd]; simp

theorem inSync_of_zero (p : Page) (hpaid : p.paidAmount = "")
    (hv : ∀ d ∈ p.denoms, 0 < d.value ∧ d.value < 2 ^ 53)
    (hc : ∀ d ∈ p.denoms, d.exactCount = 0) : InSync p := by
  obtain ⟨hs, h0⟩ := safeSlots_of_zero p.denoms hv hc
  refine ⟨?_, hv⟩
  rw [(paid_of_safe _ hs).2, h0, Page.paid, hpaid]
  decide

theorem inSync_reset (p : Page) (h : ∀ d ∈ p.denoms, 0 < d.value ∧ d.value < 2 ^ 53) :
    InSync (resetPaymentSection p) := by
  apply inSync_of_zero
  · rfl
  · intro d hd
    simp only [resetPaymentSection, List.mem_map] at hd
    obtain ⟨d', hd', rfl⟩ := hd
    exact h d' hd'
  · intro d hd
    simp only [resetPaymentSection, List.mem_map] at hd
    obtain ⟨d', _, rfl⟩ := hd
    simp [DenomInput.exactCount, readInteger_numToString]

theorem inSync_of_frame {p q : Page} (h : InSync p) (hp : q.paidAmount = p.paidAmount)
    (hd : q.denoms = p.denoms) : InSync q := by
  unfold InSync Page.paid at *
  rw [hp, hd]; exact h

theorem updateAt_value (f : DenomInput → DenomInput) (hf : ∀ d, (f d).value = d.value)
    (i : Nat) (ds : List DenomInput) (h : ∀ d ∈ ds, 0 < d.value ∧ d.value < 2 ^ 53) :
    ∀ d ∈ updateAt f i ds, 0 < d.value ∧ d.value < 2 ^ 53 := by
  induction ds generalizing i with
  | nil => intro d hd; simp [updateAt] at hd
  | cons x xs ih =>
    cases i with
    | zero =>
      intro d hd
      simp only [updateAt, List.mem_cons] at hd
      rcases hd with rfl | hd
      · rw [hf]; exact h x (List.mem_cons_self _ _)
      · exact h d (List.mem_cons_of_mem _ hd)
    | succ i =>
      intro d hd
      simp only [updateAt, List.mem_cons] at hd
      rcases hd with rfl | hd
      · exact h d (List.mem_cons_self _ _)
      · exact ih i (fun y hy => h y (List.mem_cons_of_mem _ hy)) d hd

theorem inSync_inputDenom (p : Page) (i : Nat) (text : String)
    (h : ∀ d ∈ p.denoms, 0 < d.value ∧ d.value < 2 ^ 53) : InSync (inputDenom i text p) :=
  ⟨rfl, updateAt_value (fun d => { d with val := text }) (fun _ => rfl) i p.denoms h⟩

theorem calculateTotal_frame (p : Page) :
    (calculateTotal p).1.paidAmount = p.paidAmount ∧ (calculateTotal p).1.denoms = p.denoms := by
  unfold calculateTotal
  simp only [clearError, showError]
  split
  · exact ⟨rfl, rfl⟩
  · split <;> exact ⟨rfl, rfl⟩

theorem generateBill_frame (p : Page) :
    (generateBill p).1.paidAmount = p.paidAmount ∧ (generateBill p).1.denoms = p.denoms := by
  unfold generateBill
  simp only [clearError, showError]
  split
  · exact ⟨rfl, rfl⟩
  · split
    · exact ⟨rfl, rfl⟩
    · split <;> exact ⟨rfl, rfl⟩

theorem inSync_step (p : Page) (e : Event) (h : InSync p) : InSync (step p e) := by
  cases e with
  | addProduct => exact inSync_reset _ h.2
  | removeProduct i =>
    simp only [step, removeRow]
    split
    · exact inSync_of_frame h rfl rfl
    · exact inSync_reset _ h.2
  | productCode i text => exact inSync_reset _ h.2
  | quantity i text => exact inSync_reset _ h.2
  | email text => exact inSync_of_frame h rfl rfl
  | denom i text => exact inSync_inputDenom p i text h.2
  | clickCalculate =>
    simp only [step]
    split
    · exact h
    · exact inSync_of_frame h (calculateTotal_frame p).1 (calculateTotal_frame p).2
  | calcOk res =>
    simp only [step]
    split
    · exact inSync_of_frame h rfl rfl
    · exact h
  | calcFailed body =>
    simp only [step]
    split
    · exact inSync_of_frame h rfl rfl
    · exact h
  | clickGenerate =>
    simp only [step]
    split
    · exact h
    · exact inSync_of_frame h (generateBill_frame p).1 (generateBill_frame p).2
  | genOk oc =>
    simp only [step]
    split
    · exact inSync_of_frame h rfl rfl
    · exact h
  | genFailed body =>
    simp only [step]
    split
    · exact inSync_of_frame h rfl rfl
    · exact h

theorem inSync_run (events : List Event) (p : Page) (h : InSync p) : InSync (run p events) := by
  induction events generalizing p with
  | nil => exact h
  | cons e es ih => exact ih _ (inSync_step p e h)

/-- With safe slots the request carries the slots whose count is above 0. -/
theorem collectDenominations_safe (denoms : List DenomInput)
    (hs : ∀ d ∈ denoms, d.value.natAbs < 2 ^ 53 ∧ d.exactCount.natAbs < 2 ^ 53) :
    collectDenominations denoms
      = (denoms.filter (fun d => decide (0 < d.exactCount))).map
          (fun d => { value := JSNum.ofInt d.value, count := JSNum.ofInt d.exactCount }) := by
  rw [collectDenominations_eq]
  have hf : denoms.filter (fun d => JSNum.lt (JSNum.ofInt 0) d.count)
      = denoms.filter (fun d => decide (0 < d.exactCount)) := by
    apply List.filter_congr
    intro d hd
    rw [count_safe d (hs d hd).2, lt_ofInt]
  rw [hf]
  apply List.map_congr_left
  intro d hd
  have hd' := List.mem_of_mem_filter hd
  rw [face_safe d (hs d hd').1, count_safe d (hs d hd').2]

/-- With positive face values the slots with a count above 0 sum to at least
the sum over all slots. -/
theorem slotSum_le_carried (denoms : List DenomInput) (hv : ∀ d ∈ denoms, 0 < d.value) :
    slotSum denoms ≤
      (((denoms.filter (fun d => decide (0 < d.exactCount))).map
        (fun d => ({ value := JSNum.ofInt d.value,
                     count := JSNum.ofInt d.exactCount } : Denomination))).map
          (fun d => d.value.toInt * d.count.toInt)).sum := by
  induction denoms with
  | nil => simp [slotSum]
  | cons d ds ih =>
    have hd := hv d (List.mem_cons_self _ _)
    have ih := ih (fun x hx => hv x (List.mem_cons_of_mem _ hx))
    simp only [slotSum, List.map_cons, List.sum_cons] at ih ⊢
    by_cases hc : 0 < d.exactCount
    · simp only [List.filter_cons, hc, decide_True, if_true, List.map_cons, List.sum_cons,
        toInt_ofInt]
      omega
    · simp only [List.filter_cons, hc, decide_False, Bool.false_eq_true, if_false]
      have : d.value * d.exactCount ≤ 0 :=
        Int.mul_nonpos_of_nonneg_of_nonpos (le_of_lt hd) (by omega)
      omega

theorem generateBill_sent (p : Page) (req : BillRequest) (h : (generateBill p).2 = some req) :
    req.denominations = collectDenominations p.denoms ∧ req.order_code = p.orderCode ∧
    JSNum.lt p.paid p.total = false := by
  unfold generateBill at h
  simp only [clearError] at h
  split at h
  · simp at h
  · split at h
    · simp at h
    · split at h
      · simp at h
      · rename_i hlt
        simp only [Option.some.injEq] at h
        rw [← h]
        refine ⟨rfl, rfl, ?_⟩
        simpa [Page.paid, Page.total] using hlt

theorem lt_mono (a b : Int) (t : JSNum) (hab : a ≤ b)
    (h : JSNum.lt (JSNum.ofInt a) t = false) : JSNum.lt (JSNum.ofInt b) t = false := by
  cases t with
  | nan => rfl
  | negInf => rfl
  | posInf => simp [JSNum.lt, JSNum.ofInt] at h
  | fin m j =>
    simp only [JSNum.lt, JSNum.ofInt, pow_zero, mul_one, decide_eq_false_iff_not, not_lt] at h ⊢
    have hp : (0 : Int) ≤ 2 ^ j := by positivity
    have := mul_le_mul_of_nonneg_right hab hp
    omega

set_option maxRecDepth 100000 in
set_option exponentiation.threshold 2000 in
/-- C1, as stated, fails.  With one slot of face value 3 holding
6004799503160661 and the total 18014398509481984 on display, `generateBill`
sends a request whose denominations sum to 18014398509481983.  With one note of
100 and the total 100.00000000000000001 on display it sends a request for
100.  Both pages are reached from a page with all counts 0 and no paid
amount. -/
theorem payment_below_total :
    (generateBill (pageAt [3] "18014398509481984" [(0, "6004799503160661")])).2
      = some { order_code := "O1",
               denominations := [{ value := JSNum.ofInt 3,
                                   count := JSNum.ofInt 6004799503160661 }] } ∧
    BillRequest.amount
      { order_code := "O1",
        denominations := [{ value := JSNum.ofInt 3, count := JSNum.ofInt 6004799503160661 }] }
      = 18014398509481983 ∧
    displayedAtMost (pageAt [3] "18014398509481984" [(0, "6004799503160661")]).totalAmount
      18014398509481983 = false ∧
    (generateBill (pageAt [100] "100.00000000000000001" [(0, "1")])).2
      = some { order_code := "O1",
               denominations := [{ value := JSNum.ofInt 100, count := JSNum.ofInt 1 }] } ∧
    displayedAtMost (pageAt [100] "100.00000000000000001" [(0, "1")]).totalAmount 100
      = false := by
  decide

/-- C1, amended: payment covers the total as long as the arithmetic stays
below `2 ^ 53`.  Start from a page whose denomination counts are all 0, whose
paid amount is empty and whose face values are positive and below `2 ^ 53`,
and let any events happen.  If then every count and the sum of the products of
face value and count are below `2 ^ 53` in size and `generateBill` sends a
request, the request carries the slots with a count above 0, and the sum of
value times count over them is not below the number the script reads from the
displayed total; it is at least the displayed total itself when that is the
numeral of an integer below `2 ^ 53` in size or an amount below `2 ^ 46`
written with two decimals. -/
theorem payment_covers_total (p0 : Page) (events : List Event)
    (hcount : ∀ d ∈ p0.denoms, d.exactCount = 0) (hpaid : p0.paidAmount = "")
    (hvalue : ∀ d ∈ p0.denoms, 0 < d.value ∧ d.value < 2 ^ 53)
    (hsafe : SafeSlots (run p0 events).denoms)
    (req : BillRequest) (hreq : (generateBill (run p0 events)).2 = some req) :
    req.denominations
      = ((run p0 events).denoms.filter (fun d => decide (0 < d.exactCount))).map
          (fun d => { value := JSNum.ofInt d.value, count := JSNum.ofInt d.exactCount }) ∧
    JSNum.lt (JSNum.ofInt req.amount) (run p0 events).total = false ∧
    (∀ T : Int, T.natAbs < 2 ^ 53 → (run p0 events).totalAmount = numToString T →
      T ≤ req.amount) ∧
    (∀ c : Nat, c < 100 * 2 ^ 46 → (run p0 events).totalAmount = centsText c →
      (c : Int) ≤ 100 * req.amount) := by
  have hs := inSync_run events p0 (inSync_of_zero p0 hpaid hvalue hcount)
  obtain ⟨hden, _, hlt⟩ := generateBill_sent _ req hreq
  have hcar := collectDenominations_safe (run p0 events).denoms hsafe.1
  have hle := slotSum_le_carried (run p0 events).denoms (fun d hd => (hs.2 d hd).1)
  have hp : (run p0 events).paid = JSNum.ofInt (slotSum (run p0 events).denoms) := by
    rw [hs.1, (paid_of_safe _ hsafe).2]
  have hamount : slotSum (run p0 events).denoms ≤ req.amount := by
    rw [BillRequest.amount, hden, hcar]; exact hle
  rw [hp] at hlt
  have hcover := lt_mono _ _ _ hamount hlt
  refine ⟨by rw [hden, hcar], hcover, ?_, ?_⟩
  · intro T hT htot
    rw [total_numeral _ T hT htot, lt_ofInt, decide_eq_false_iff_not] at hcover
    omega
  · intro c hc htot
    rw [total_cents _ c htot, lt_cents _ c hc, decide_eq_false_iff_not] at hcover
    omega

set_option maxRecDepth 100000 in
/-- C1, amended, at the page of the specification and next to it: with the
total 110.50 on display and one note of 100, one of 10 and one of 1, the
request carries 111, and 11050 cents are at most 11100. -/
theorem payment_covers_total_witness :
    ((11050 : Nat) : Int) ≤ 100 * BillRequest.amount
      { order_code := "O1",
        denominations := [{ value := JSNum.ofInt 100, count := JSNum.ofInt 1 },
                          { value := JSNum.ofInt 10, count := JSNum.ofInt 1 },
                          { value := JSNum.ofInt 1, count := JSNum.ofInt 1 }] } :=
  (payment_covers_total (freshPage [100, 10, 1])
    [Event.email "a@b.com", Event.productCode 0 "P001", Event.clickCalculate,
     Event.calcOk ⟨"O1", "100", "10.50", "110.50"⟩, Event.denom 0 "1", Event.denom 1 "1",
     Event.denom 2 "1"]
    (by decide) (by decide) (by decide) (by decide)
    { order_code := "O1",
      denominations := [{ value := JSNum.ofInt 100, count := JSNum.ofInt 1 },
                        { value := JSNum.ofInt 10, count := JSNum.ofInt 1 },
                        { value := JSNum.ofInt 1, count := JSNum.ofInt 1 }] }
    (by decide)).2.2.2 11050 (by decide) (by decide)

/-! ## Product rows -/

theorem reindexFrom_length (k : Nat) (rows : List ProductRow) :
    (reindexFrom k rows).length = rows.length := by
  induction rows generalizing k with
  | nil => rfl
  | cons r rs ih => simp [reindexFrom, ih]

theorem reindexFrom_node (k : Nat) (rows : List ProductRow) :
    (reindexFrom k rows).map (fun r => r.node) = rows.map (fun r => r.node) := by
  induction rows generalizing k with
  | nil => rfl
  | cons r rs ih => simp [reindexFrom, ih]

theorem reindexFrom_index (k : Nat) (rows : List ProductRow) :
    (reindexFrom k rows).map (fun r => r.index)
      = (List.range' k rows.length).map (fun j : Nat => numToString ((j : Int) + 1)) := by
  induction rows generalizing k with
  | nil => rfl
  | cons r rs ih => simp [reindexFrom, ih, List.range']

theorem updateAt_length {α : Type} (f : α → α) (i : Nat) (xs : List α) :
    (updateAt f i xs).length = xs.length := by
  induction xs generalizing i with
  | nil => cases i <;> rfl
  | cons x xs ih => cases i <;> simp [updateAt, ih]

theorem updateAt_map {α β : Type} (f : α → α) (g : α → β) (hg : ∀ x, g (f x) = g x)
    (i : Nat) (xs : List α) : (updateAt f i xs).map g = xs.map g := by
  induction xs generalizing i with
  | nil => cases i <;> rfl
  | cons x xs ih => cases i <;> simp [updateAt, ih, hg]

theorem paymentReset_reset (p : Page) : PaymentReset (resetPaymentSection p) := by
  refine ⟨rfl, rfl, ?_, rfl⟩
  intro d hd
  simp only [resetPaymentSection, List.mem_map] at hd
  obtain ⟨d', _, rfl⟩ := hd
  rfl

theorem rows_length_step (p : Page) (e : Event) (h : 1 ≤ p.rows.length) :
    1 ≤ (step p e).rows.length := by
  cases e with
  | addProduct =>
    simp [step, addRow, resetPaymentSection, reindexRows, reindexFrom_length]
  | removeProduct i =>
    simp only [step, removeRow]
    split
    · exact h
    · rename_i hlen
      simp only [resetPaymentSection, reindexRows, reindexFrom_length]
      by_cases hi : i < p.rows.length
      · rw [List.length_eraseIdx, if_pos hi]; omega
      · rw [List.eraseIdx_of_length_le (by omega)]; exact h
  | productCode i text =>
    simpa [step, inputProductCode, resetPaymentSection, updateAt_length] using h
  | quantity i text =>
    simpa [step, inputQuantity, resetPaymentSection, updateAt_length] using h
  | email text => exact h
  | denom i text => exact h
  | clickCalculate =>
    simp only [step]
    split
    · exact h
    · have : (calculateTotal p).1.rows = p.rows := by
        unfold calculateTotal
        simp only [clearError, showError]
        split
        · rfl
        · split <;> rfl
      rw [this]; exact h
  | calcOk res => simp only [step]; split <;> exact h
  | calcFailed body => simp only [step]; split <;> exact h
  | clickGenerate =>
    simp only [step]
    split
    · exact h
    · have : (generateBill p).1.rows = p.rows := by
        unfold generateBill
        simp only [clearError, showError]
        split
        · rfl
        · split
          · rfl
          · split <;> rfl
      rw [this]; exact h
  | genOk oc => simp only [step]; split <;> exact h
  | genFailed body => simp only [step]; split <;> exact h

/-- C6: at least one product row always exists.  From a page with at least one
product row, every finite sequence of events (row additions, row removals and
field edits among them) leaves at least one product row; and a removal asked
for while exactly one row remains leaves the rows as they are and shows "At
least one product is required.". -/
theorem at_least_one_row (p : Page) (hrow : 1 ≤ p.rows.length) (events : List Event) (i : Nat) :
    1 ≤ (run p events).rows.length ∧
    ((run p events).rows.length = 1 →
      (removeRow i (run p events)).rows = (run p events).rows ∧
      (removeRow i (run p events)).errorText = "At least one product is required." ∧
      (removeRow i (run p events)).errorHidden = false) := by
  constructor
  · induction events generalizing p with
    | nil => exact hrow
    | cons e es ih => exact ih _ (rows_length_step p e hrow)
  · intro h1
    simp [removeRow, h1, showError, ErrorValue.render]

/-- C8: every item edit resets the payment section.  An input event on a
product code or quantity field, a row addition, and a row removal that removes
a row each leave both sections hidden, every denomination input at `0` (the
slots and their face values as before) and the paid amount empty; the input
events keep the rows and their order; none of these events changes the stored
order code. -/
theorem item_edit_resets_payment (p : Page) (i : Nat) (text : String) :
    (PaymentReset (inputProductCode i text p) ∧
      (inputProductCode i text p).rows.length = p.rows.length ∧
      (inputProductCode i text p).rows.map (fun r => r.node) = p.rows.map (fun r => r.node) ∧
      (inputProductCode i text p).denoms.map (fun d => d.value) = p.denoms.map (fun d => d.value) ∧
      (inputProductCode i text p).orderCode = p.orderCode) ∧
    (PaymentReset (inputQuantity i text p) ∧
      (inputQuantity i text p).rows.length = p.rows.length ∧
      (inputQuantity i text p).rows.map (fun r => r.node) = p.rows.map (fun r => r.node) ∧
      (inputQuantity i text p).denoms.map (fun d => d.value) = p.denoms.map (fun d => d.value) ∧
      (inputQuantity i text p).orderCode = p.orderCode) ∧
    (PaymentReset (addRow p) ∧
      (addRow p).denoms.map (fun d => d.value) = p.denoms.map (fun d => d.value) ∧
      (addRow p).orderCode = p.orderCode) ∧
    (1 < p.rows.length →
      PaymentReset (removeRow i p) ∧
      (removeRow i p).denoms.map (fun d => d.value) = p.denoms.map (fun d => d.value)) ∧
    (removeRow i p).orderCode = p.orderCode := by
  have hv : ∀ q : Page,
      (resetPaymentSection q).denoms.map (fun d => d.value) = q.denoms.map (fun d => d.value) := by
    intro q; simp [resetPaymentSection, Function.comp_def]
  refine ⟨⟨paymentReset_reset _, ?_, ?_, hv _, rfl⟩, ⟨paymentReset_reset _, ?_, ?_, hv _, rfl⟩,
    ⟨paymentReset_reset _, hv _, rfl⟩, ?_, ?_⟩
  · simp [inputProductCode, resetPaymentSection, updateAt_length]
  · simp only [inputProductCode, resetPaymentSection]
    exact updateAt_map (fun r => { r with product_code := text }) (fun r => r.node)
      (fun _ => rfl) i p.rows
  · simp [inputQuantity, resetPaymentSection, updateAt_length]
  · simp only [inputQuantity, resetPaymentSection]
    exact updateAt_map (fun r => { r with quantity := text }) (fun r => r.node)
      (fun _ => rfl) i p.rows
  · intro h
    have hn : ¬ p.rows.length ≤ 1 := by omega
    simp only [removeRow, hn, if_false]
    exact ⟨paymentReset_reset _, hv _⟩
  · simp only [removeRow]
    split <;> rfl

/-! ## Adding and removing rows -/

/-- The rows carry the numbers 1, 2, ... in display order. -/
theorem addRow_rows (p : Page) :
    (addRow p).rows.length = p.rows.length + 1 ∧
    (addRow p).rows.map (fun r => r.node) = p.rows.map (fun r => r.node) ++ [p.nextNode] ∧
    (addRow p).nextNode = p.nextNode + 1 ∧
    (addRow p).rows.map (fun r => r.index)
      = (List.range (addRow p).rows.length).map (fun j : Nat => numToString ((j : Int) + 1)) := by
  refine ⟨?_, ?_, rfl, ?_⟩
  · simp [addRow, resetPaymentSection, reindexRows, reindexFrom_length]
  · simp [addRow, resetPaymentSection, reindexRows, reindexFrom_node]
  · simp only [addRow, resetPaymentSection, reindexRows, reindexFrom_index, reindexFrom_length,
      List.range_eq_range']

theorem run_append (p : Page) (es fs : List Event) : run p (es ++ fs) = run (run p es) fs := by
  simp [run, List.foldl_append]

theorem addRows_rows (p : Page) (n : Nat) :
    (run p (List.replicate n Event.addProduct)).rows.length = p.rows.length + n ∧
    (run p (List.replicate n Event.addProduct)).rows.map (fun r => r.node)
      = p.rows.map (fun r => r.node) ++ List.range' p.nextNode n ∧
    (run p (List.replicate n Event.addProduct)).nextNode = p.nextNode + n ∧
    (1 ≤ n →
      (run p (List.replicate n Event.addProduct)).rows.map (fun r => r.index)
        = (List.range (run p (List.replicate n Event.addProduct)).rows.length).map
            (fun j : Nat => numToString ((j : Int) + 1))) := by
  induction n with
  | zero => simp [run]
  | succ n ih =>
    obtain ⟨hl, hn, hx, _⟩ := ih
    have hrun : run p (List.replicate (n + 1) Event.addProduct)
        = addRow (run p (List.replicate n Event.addProduct)) := by
      rw [List.replicate_succ', run_append]; rfl
    obtain ⟨al, an, ax, ai⟩ := addRow_rows (run p (List.replicate n Event.addProduct))
    rw [hrun]
    refine ⟨?_, ?_, ?_, fun _ => ai⟩
    · rw [al, hl]; omega
    · rw [an, hn, hx, List.range'_concat]; simp
    · rw [ax, hx]; omega

theorem removeRow_rows (q : Page) (i : Nat) (h2 : 2 ≤ q.rows.length) (hi : i < q.rows.length) :
    (removeRow i q).rows.length = q.rows.length - 1 ∧
    ((removeRow i q).rows.map (fun r => r.node)).Sublist (q.rows.map (fun r => r.node)) ∧
    (removeRow i q).rows.map (fun r => r.index)
      = (List.range (removeRow i q).rows.length).map (fun j : Nat => numToString ((j : Int) + 1)) := by
  have hn : ¬ q.rows.length ≤ 1 := by omega
  simp only [removeRow, hn, if_false, resetPaymentSection, reindexRows]
  refine ⟨?_, ?_, ?_⟩
  · rw [reindexFrom_length, List.length_eraseIdx, if_pos hi]
  · rw [reindexFrom_node]
    exact (List.eraseIdx_sublist q.rows i).map _
  · rw [reindexFrom_index, reindexFrom_length, List.range_eq_range']

theorem removeRows_rows (is : List Nat) (q : Page) (n : Nat) (hlen : q.rows.length = n)
    (hM : is.length < n) (hvalid : validRemovals n is = true)
    (hidx : q.rows.map (fun r => r.index)
      = (List.range q.rows.length).map (fun j : Nat => numToString ((j : Int) + 1))) :
    (run q (is.map Event.removeProduct)).rows.length = n - is.length ∧
    ((run q (is.map Event.removeProduct)).rows.map (fun r => r.node)).Sublist
      (q.rows.map (fun r => r.node)) ∧
    (run q (is.map Event.removeProduct)).rows.map (fun r => r.index)
      = (List.range (run q (is.map Event.removeProduct)).rows.length).map
          (fun j : Nat => numToString ((j : Int) + 1)) := by
  induction is generalizing q n with
  | nil => exact ⟨by simpa [run] using hlen, List.Sublist.refl _, hidx⟩
  | cons i is ih =>
    simp only [validRemovals, Bool.and_eq_true, decide_eq_true_eq] at hvalid
    simp only [List.length_cons] at hM
    obtain ⟨rl, rs, ri⟩ := removeRow_rows q i (by omega) (by omega)
    have hstep : run q ((i :: is).map Event.removeProduct)
        = run (removeRow i q) (is.map Event.removeProduct) := rfl
    obtain ⟨l, s, x⟩ := ih (removeRow i q) (n - 1) (by rw [rl, hlen]) (by omega) hvalid.2 ri
    rw [hstep]
    refine ⟨?_, s.trans rs, x⟩
    rw [l]; simp only [List.length_cons]; omega

/-- C10: row count and numbering after adds and removes.  From an empty
product table, `N` row additions (`N` at least 1) followed by `M` row removals
(`M` below `N`), each on a row present at that moment, leave `N - M` rows; the
rows that survive are in the order in which they were added, and the numbers
they display are 1, 2, ..., `N - M` from top to bottom. -/
theorem rows_after_adds_and_removes (p : Page) (hempty : p.rows = []) (N : Nat) (hN : 1 ≤ N)
    (removals : List Nat) (hM : removals.length < N)
    (hvalid : validRemovals N removals = true) :
    (run (run p (List.replicate N Event.addProduct))
      (removals.map Event.removeProduct)).rows.length = N - removals.length ∧
    (run (run p (List.replicate N Event.addProduct))
      (removals.map Event.removeProduct)).rows.map (fun r => r.index)
      = (List.range (N - removals.length)).map (fun j : Nat => numToString ((j : Int) + 1)) ∧
    (run p (List.replicate N Event.addProduct)).rows.map (fun r => r.node)
      = List.range' p.nextNode N ∧
    ((run (run p (List.replicate N Event.addProduct))
      (removals.map Event.removeProduct)).rows.map (fun r => r.node)).Sublist
      (List.range' p.nextNode N) := by
  obtain ⟨al, an, _, ai⟩ := addRows_rows p N
  have hlen : (run p (List.replicate N Event.addProduct)).rows.length = N := by
    rw [al, hempty]; simp
  have hnode : (run p (List.replicate N Event.addProduct)).rows.map (fun r => r.node)
      = List.range' p.nextNode N := by
    rw [an, hempty]; simp
  obtain ⟨l, s, x⟩ := removeRows_rows removals _ N hlen hM hvalid (ai hN)
  refine ⟨l, ?_, hnode, ?_⟩
  · rw [x, l]
  · rw [← hnode]; exact s

/-- C10 at four additions and the removals of the second row and then of the
last: the two rows left are the first and the third, numbered 1 and 2. -/
theorem rows_after_adds_and_removes_witness :
    (run (run { freshPage [100, 50] with rows := [], nextNode := 0 }
        (List.replicate 4 Event.addProduct))
      ([1, 2].map Event.removeProduct)).rows.length = 4 - [1, 2].length ∧
    (run (run { freshPage [100, 50] with rows := [], nextNode := 0 }
        (List.replicate 4 Event.addProduct))
      ([1, 2].map Event.removeProduct)).rows.map (fun r => r.index)
      = (List.range (4 - [1, 2].length)).map (fun j : Nat => numToString ((j : Int) + 1)) ∧
    (run { freshPage [100, 50] with rows := [], nextNode := 0 }
        (List.replicate 4 Event.addProduct)).rows.map (fun r => r.node)
      = List.range' 0 4 ∧
    ((run (run { freshPage [100, 50] with rows := [], nextNode := 0 }
        (List.replicate 4 Event.addProduct))
      ([1, 2].map Event.removeProduct)).rows.map (fun r => r.node)).Sublist
      (List.range' 0 4) :=
  rows_after_adds_and_removes { freshPage [100, 50] with rows := [], nextNode := 0 } rfl 4
    (by decide) [1, 2] (by decide) (by decide)

/-! ## Stale totals -/

theorem calculateTotal_shape (p : Page) :
    (calculateTotal p).1.totalsHidden = p.totalsHidden ∧
    (calculateTotal p).1.denominationHidden = p.denominationHidden ∧
    ((calculateTotal p).2 = none → (calculateTotal p).1.calcInFlight = p.calcInFlight) := by
  unfold calculateTotal
  simp only [clearError, showError]
  split
  · exact ⟨rfl, rfl, fun _ => rfl⟩
  · split
    · exact ⟨rfl, rfl, fun _ => rfl⟩
    · exact ⟨rfl, rfl, fun h => by simp at h⟩

theorem generateBill_shape (p : Page) :
    (generateBill p).1.totalsHidden = p.totalsHidden ∧
    (generateBill p).1.denominationHidden = p.denominationHidden ∧
    (generateBill p).1.calcInFlight = p.calcInFlight := by
  unfold generateBill
  simp only [clearError, showError]
  split
  · exact ⟨rfl, rfl, rfl⟩
  · split
    · exact ⟨rfl, rfl, rfl⟩
    · split <;> exact ⟨rfl, rfl, rfl⟩

/-- One quiet step keeps the displayed total fresh and the request in flight
up to date with the items. -/
theorem fresh_step (p : Page) (h : History) (e : Event)
    (hfresh : TotalFresh (p, h)) (hsent : p.calcInFlight.isSome = true → h.sentAt = h.edits)
    (hq : (isItemEdit p e && p.calcInFlight.isSome) = false) :
    TotalFresh (step p e, observe p h e) ∧
    ((step p e).calcInFlight.isSome = true → (observe p h e).sentAt = (observe p h e).edits) := by
  have hidden : ∀ q : Page, ∀ k : History, TotalFresh (resetPaymentSection q, k) := by
    intro q k ht; simp [resetPaymentSection] at ht
  cases e with
  | addProduct =>
    have hn : p.calcInFlight.isSome = false := by simpa [isItemEdit] using hq
    refine ⟨hidden _ _, ?_⟩
    intro hs
    simp [step, addRow, resetPaymentSection, reindexRows, hn] at hs
  | removeProduct i =>
    simp only [step, removeRow, observe]
    split
    · exact ⟨hfresh, hsent⟩
    · rename_i hlen
      have hn : p.calcInFlight.isSome = false := by
        have : 1 < p.rows.length := by omega
        simpa [isItemEdit, this] using hq
      refine ⟨hidden _ _, ?_⟩
      intro hs
      simp [resetPaymentSection, reindexRows, hn] at hs
  | productCode i text =>
    have hn : p.calcInFlight.isSome = false := by simpa [isItemEdit] using hq
    refine ⟨hidden _ _, ?_⟩
    intro hs
    simp [step, inputProductCode, resetPaymentSection, hn] at hs
  | quantity i text =>
    have hn : p.calcInFlight.isSome = false := by simpa [isItemEdit] using hq
    refine ⟨hidden _ _, ?_⟩
    intro hs
    simp [step, inputQuantity, resetPaymentSection, hn] at hs
  | email text => exact ⟨hfresh, hsent⟩
  | denom i text => exact ⟨hfresh, hsent⟩
  | clickCalculate =>
    simp only [step, observe]
    split
    · exact ⟨hfresh, hsent⟩
    · obtain ⟨h1, h2, h3⟩ := calculateTotal_shape p
      split
      · refine ⟨?_, fun _ => rfl⟩
        intro ht hd
        simp only [h1] at ht
        simp only [h2] at hd
        exact hfresh ht hd
      · rename_i hnone
        have hnone' : (calculateTotal p).2 = none := by
          cases hc : (calculateTotal p).2 with
          | none => rfl
          | some r => simp [hc] at hnone
        refine ⟨?_, ?_⟩
        · intro ht hd
          simp only [h1] at ht
          simp only [h2] at hd
          exact hfresh ht hd
        · rw [h3 hnone']; exact hsent
  | calcOk res =>
    simp only [step, observe]
    split
    · rename_i hin
      refine ⟨?_, ?_⟩
      · intro _ _; exact hsent hin
      · intro hs; simp [calcComplete] at hs
    · exact ⟨hfresh, hsent⟩
  | calcFailed body =>
    simp only [step, observe]
    split
    · refine ⟨hfresh, ?_⟩
      intro hs; simp [calcComplete] at hs
    · exact ⟨hfresh, hsent⟩
  | clickGenerate =>
    simp only [step, observe]
    split
    · exact ⟨hfresh, hsent⟩
    · obtain ⟨h1, h2, h3⟩ := generateBill_shape p
      refine ⟨?_, ?_⟩
      · intro ht hd
        simp only [h1] at ht
        simp only [h2] at hd
        exact hfresh ht hd
      · rw [h3]; exact hsent
  | genOk oc =>
    simp only [step, observe]
    split
    · exact ⟨hfresh, hsent⟩
    · exact ⟨hfresh, hsent⟩
  | genFailed body =>
    simp only [step, observe]
    split
    · exact ⟨hfresh, hsent⟩
    · exact ⟨hfresh, hsent⟩

/-- Without an item edit during a calculate-total request, the displayed total
is never stale: the edit in flight is the only way to a stale total. -/
theorem total_fresh_of_quietRun (events : List Event) (p : Page) (h : History)
    (hfresh : TotalFresh (p, h)) (hsent : p.calcInFlight.isSome = true → h.sentAt = h.edits)
    (hq : quietRun p events = true) : TotalFresh (runObserved p h events) := by
  induction events generalizing p h with
  | nil => exact hfresh
  | cons e es ih =>
    simp only [quietRun, Bool.and_eq_true, Bool.not_eq_true'] at hq
    obtain ⟨f, s⟩ := fresh_step p h e hfresh hsent hq.1
    exact ih _ _ f s hq.2

/-- C7 on the code: a quantity edit made while the calculate-total request is
in flight is followed by the success callback, which reveals both sections.
The request was sent for `P001` times 1, the rows now say `P001` times 5, and
the total 110 computed for the former is on display.  The same edit made
after the response hides the total. -/
theorem stale_total_displayed :
    (calculateTotal orderPage).2 = some
      { customer_email := "a@b.com", items := [{ product_code := "P001", quantity := JSNum.ofInt 1 }],
        order_code := none } ∧
    (runObserved orderPage ⟨0, 0, 0⟩ editInFlight).1 = run orderPage editInFlight ∧
    (run orderPage editInFlight).totalsHidden = false ∧
    (run orderPage editInFlight).denominationHidden = false ∧
    (run orderPage editInFlight).totalAmount = "110" ∧
    collectItems (run orderPage editInFlight).rows = [{ product_code := "P001", quantity := JSNum.ofInt 5 }] ∧
    (runObserved orderPage ⟨0, 0, 0⟩ editInFlight).2 = ⟨1, 0, 0⟩ ∧
    ¬ TotalFresh (runObserved orderPage ⟨0, 0, 0⟩ editInFlight) ∧
    (run orderPage
      [Event.clickCalculate, Event.calcOk ⟨"O1", "100", "10", "110"⟩,
       Event.quantity 0 "5"]).totalsHidden = true := by
  decide

/-! ## The theorems at the pages of the specification -/

/-- C3 at a page with an empty email and one valid item, and at a page with an
email and no product code. -/
theorem calculateTotal_validation_witness :
    (calculateTotal (run (freshPage [100, 50]) [Event.productCode 0 "P001"])).1.errorText
      = "Customer email is required." ∧
    (calculateTotal (run (freshPage [100, 50]) [Event.email "a@b.com"])).1.errorText
      = "Add at least one product." :=
  ⟨((calculateTotal_validation (run (freshPage [100, 50]) [Event.productCode 0 "P001"])).1
      (by decide)).1,
   ((calculateTotal_validation (run (freshPage [100, 50]) [Event.email "a@b.com"])).2
      (by decide) (by decide)).1⟩
/-- C6 at a page with two rows of which one is removed: the second removal is
refused. -/
theorem at_least_one_row_witness :
    (removeRow 0 (run (freshPage [100, 50]) [Event.addProduct, Event.removeProduct 0])).rows
      = (run (freshPage [100, 50]) [Event.addProduct, Event.removeProduct 0]).rows :=
  ((at_least_one_row (freshPage [100, 50]) (by decide)
    [Event.addProduct, Event.removeProduct 0] 0).2 (by decide)).1
/-- C8 at a page with two rows and a total on display: removing a row hides
the payment section again. -/
theorem item_edit_resets_payment_witness :
    PaymentReset (removeRow 1 (run orderPage
      [Event.addProduct, Event.clickCalculate, Event.calcOk ⟨"O1", "100", "10", "110"⟩,
       Event.denom 0 "2"])) :=
  ((item_edit_resets_payment (run orderPage
      [Event.addProduct, Event.clickCalculate, Event.calcOk ⟨"O1", "100", "10", "110"⟩,
       Event.denom 0 "2"]) 1 "").2.2.2.1 (by decide)).1

end Billing
